import Mathlib

/-!
# TinyWebServer: the per-connection HTTP request core (`http_conn`)

A shallow embedding of `src/http_conn.h` and `src/http_conn.cpp`.

* Buffers are lists of bytes (`Nat`), pointers into the read buffer are
  offsets, a null pointer is `none`.
* `int` cursors that the code only ever increments from zero are `Nat`;
  `m_content_length` can be negative and is an `Int` wrapped to 32 bits.
* The C library string functions are modelled by their specification on the
  NUL-terminated string that starts at an offset of a buffer.
* The operating system (recv, writev, stat, mmap) is an explicit oracle.
-/

namespace TinyWebServer

/-! ## Constants and enumerations (`http_conn.h`) -/

/-- The `FILENAME_LEN` constant of the header. -/
def FILENAME_LEN : Nat := 200

/-- The `READ_BUFFER_SIZE` constant of the header. -/
def READ_BUFFER_SIZE : Nat := 1024

inductive METHOD where
  | GET | POST | HEAD | PUT | DELETE | TRACE | OPTIONS | CONNECT | PATCH
  deriving DecidableEq, Repr

inductive CHECK_STATE where
  | CHECK_STATE_REQUESTLINE
  | CHECK_STATE_HEADER
  | CHECK_STATE_CONTENT
  deriving DecidableEq, Repr

inductive HTTP_CODE where
  | NO_REQUEST | GET_REQUEST | BAD_REQUEST | NO_RESOURCE | FORBIDDEN_REQUEST
  | FILE_REQUEST | INTERNAL_ERROR | CLOSED_CONNECTION
  deriving DecidableEq, Repr

inductive LINE_STATUS where
  | LINE_OK | LINE_BAD | LINE_OPEN
  deriving DecidableEq, Repr

open METHOD CHECK_STATE HTTP_CODE LINE_STATUS

/-! ## Bytes and C strings -/

/-- The bytes of a string literal. -/
def bytes (s : String) : List Nat := s.toList.map Char.toNat

/-- Carriage return. -/
def CR : Nat := 13

/-- Line feed. -/
def LF : Nat := 10

/-- The byte at index `i` of a buffer (NUL outside the buffer). -/
def byteAt (buf : List Nat) (i : Nat) : Nat := buf.getD i 0

/-- The NUL-terminated string that starts at offset `p` of `buf`, without its
terminator. -/
def cstr (buf : List Nat) (p : Nat) : List Nat :=
  (buf.drop p).takeWhile (fun b => b != 0)

/-- Storing the bytes `bs` at offset `i` of `buf`; bytes that would fall behind
the end of the buffer are dropped. -/
def write_at (buf : List Nat) (i : Nat) (bs : List Nat) : List Nat :=
  (buf.take i ++ bs ++ buf.drop (i + bs.length)).take buf.length

/-- The `tolower` function of the C locale. -/
def tolower (b : Nat) : Nat := if 65 ≤ b ∧ b ≤ 90 then b + 32 else b

/-- The `isspace` function of the C locale. -/
def isspace (b : Nat) : Bool := b == 32 || (9 ≤ b && b ≤ 13)

/-- The `isdigit` function. -/
def isdigit (b : Nat) : Bool := 48 ≤ b && b ≤ 57

/-- Equality of two byte strings up to the case of letters. -/
def caseEq (s t : List Nat) : Bool := s.map tolower == t.map tolower

/-- The test `strcasecmp(buf + p, lit) == 0`. -/
def strcasecmp_eq (buf : List Nat) (p : Nat) (lit : List Nat) : Bool :=
  caseEq (cstr buf p) lit

/-- The test `strncasecmp(buf + p, lit, n) == 0`. -/
def strncasecmp_eq (buf : List Nat) (p : Nat) (lit : List Nat) (n : Nat) : Bool :=
  caseEq ((cstr buf p).take n) (lit.take n)

/-- The characters of `" \t"`. -/
def isSpTab (b : Nat) : Bool := b == 32 || b == 9

/-- The call `strpbrk(buf + p, " \t")`: the offset of the first blank or tab
of the string, or null. -/
def strpbrk_sptab (buf : List Nat) (p : Nat) : Option Nat :=
  let s := cstr buf p
  let k := (s.takeWhile (fun b => !isSpTab b)).length
  if k < s.length then some (p + k) else none

/-- The call `strspn(buf + p, " \t")`. -/
def strspn_sptab (buf : List Nat) (p : Nat) : Nat :=
  ((cstr buf p).takeWhile isSpTab).length

/-- The call `strchr(buf + p, ch)` for a character `ch` other than NUL. -/
def strchr (buf : List Nat) (p : Nat) (ch : Nat) : Option Nat :=
  let s := cstr buf p
  let k := (s.takeWhile (fun b => b != ch)).length
  if k < s.length then some (p + k) else none

/-- The value of a 64 bit `long` truncated to a 32 bit `int`. -/
def wrap32 (x : Int) : Int := (x + 2147483648) % 4294967296 - 2147483648

/-- The library function `atol` (that is `strtol` in base ten, which saturates
at the bounds of `long`) on a byte string. -/
def atol (s : List Nat) : Int :=
  let s1 := s.dropWhile isspace
  let neg : Bool := s1.head? == some 45
  let s2 := if s1.head? == some 45 || s1.head? == some 43 then s1.tail else s1
  let v : Nat := (s2.takeWhile isdigit).foldl (fun a d => 10 * a + (d - 48)) 0
  if neg then max (-(v : Int)) (-9223372036854775808)
  else min (v : Int) 9223372036854775807

/-! ## The connection record -/

/-- The fields of `struct stat` the code reads. -/
structure file_stat where
  st_mode : Nat
  st_size : Int
  deriving DecidableEq, Repr

/-- What an `iov_base` pointer of the send descriptor points to. -/
inductive iov_base where
  | unset
  | write_buf
  | file_address (addr : Nat)
  deriving DecidableEq, Repr

/-- One segment of the vectored send descriptor. -/
structure iovec where
  base : iov_base
  iov_len : Int
  deriving DecidableEq, Repr

/-- The system calls whose arguments matter: `munmap(addr, len)`,
`writev(fd, m_iv, m_iv_count)` and `modfd`, that is `epoll_ctl`, with
`EPOLLIN` or `EPOLLOUT`. -/
inductive sys_call where
  | munmap (addr : Nat) (len : Int)
  | writev (iv0 iv1 : iovec) (count : Int)
  | modfd_in
  | modfd_out
  deriving DecidableEq, Repr

/-- The per-connection state: the data members of `class http_conn`.
Pointers into the read buffer are offsets; `m_file_address` is an address,
`0` being the null pointer. `trace` records the system calls made so far, the
latest first. -/
structure http_conn where
  m_sockfd : Int
  m_read_buf : List Nat
  m_read_idx : Nat
  m_checked_idx : Nat
  m_start_line : Nat
  m_write_buf : List Nat
  m_write_idx : Nat
  m_check_state : CHECK_STATE
  m_method : METHOD
  m_real_file : List Nat
  m_url : Option Nat
  m_version : Option Nat
  m_host : Option Nat
  m_content_length : Int
  m_linger : Bool
  m_file_address : Nat
  m_file_stat : file_stat
  m_iv0 : iovec
  m_iv1 : iovec
  m_iv_count : Int
  trace : List sys_call
  deriving DecidableEq, Repr

/-- The private `init()`: everything a new request needs is reset. The file
mapping, the stat record and the send descriptor are not touched.
`WRITE_BUFFER_SIZE` is not declared in the header and is a parameter. -/
def init (WRITE_BUFFER_SIZE : Nat) (c : http_conn) : http_conn :=
  { c with
    m_check_state := CHECK_STATE_REQUESTLINE
    m_linger := false
    m_method := GET
    m_url := none
    m_version := none
    m_content_length := 0
    m_host := none
    m_start_line := 0
    m_checked_idx := 0
    m_read_idx := 0
    m_write_idx := 0
    m_read_buf := List.replicate READ_BUFFER_SIZE 0
    m_write_buf := List.replicate WRITE_BUFFER_SIZE 0
    m_real_file := List.replicate FILENAME_LEN 0 }

/-- A connection object before its first `init`, with no mapping. -/
def blank : http_conn :=
  { m_sockfd := 0, m_read_buf := [], m_read_idx := 0, m_checked_idx := 0
    m_start_line := 0, m_write_buf := [], m_write_idx := 0
    m_check_state := CHECK_STATE_REQUESTLINE, m_method := GET, m_real_file := []
    m_url := none, m_version := none, m_host := none, m_content_length := 0
    m_linger := false, m_file_address := 0, m_file_stat := ⟨0, 0⟩
    m_iv0 := ⟨iov_base.unset, 0⟩, m_iv1 := ⟨iov_base.unset, 0⟩, m_iv_count := 0
    trace := [] }

/-! ## The line tokenizer -/

/-- The `for` loop of `parse_line`; the fuel is `m_read_idx - m_checked_idx`,
so that it is used up exactly when the loop condition fails. The undeclared
`buffer` of the line feed branch is read as `m_read_buf`. -/
def parse_line_loop : Nat → http_conn → LINE_STATUS × http_conn
  | 0, c => (LINE_OPEN, c)
  | fuel + 1, c =>
    if c.m_checked_idx < c.m_read_idx then
      let temp := byteAt c.m_read_buf c.m_checked_idx
      if temp = CR then
        if c.m_checked_idx + 1 = c.m_read_idx then (LINE_OPEN, c)
        else if byteAt c.m_read_buf (c.m_checked_idx + 1) = LF then
          (LINE_OK,
            { c with
              m_read_buf := (c.m_read_buf.set c.m_checked_idx 0).set (c.m_checked_idx + 1) 0
              m_checked_idx := c.m_checked_idx + 2 })
        else (LINE_BAD, c)
      else if temp = LF then
        if c.m_checked_idx > 1 ∧ byteAt c.m_read_buf (c.m_checked_idx - 1) = CR then
          (LINE_OK,
            { c with
              m_read_buf := (c.m_read_buf.set (c.m_checked_idx - 1) 0).set c.m_checked_idx 0
              m_checked_idx := c.m_checked_idx + 1 })
        else (LINE_BAD, c)
      else parse_line_loop fuel { c with m_checked_idx := c.m_checked_idx + 1 }
    else (LINE_OPEN, c)

/-- The function `http_conn::parse_line`. -/
def parse_line (c : http_conn) : LINE_STATUS × http_conn :=
  parse_line_loop (c.m_read_idx - c.m_checked_idx) c

/-! ## The parsers of the three states -/

/-- The function `http_conn::parse_request_line`; `text` is the offset of the
line in the read buffer. -/
def parse_request_line (c : http_conn) (text : Nat) : HTTP_CODE × http_conn :=
  match strpbrk_sptab c.m_read_buf text with
  | none => (BAD_REQUEST, { c with m_url := none })
  | some p =>
    let buf1 := c.m_read_buf.set p 0
    let c1 := { c with m_read_buf := buf1, m_url := some (p + 1) }
    if strcasecmp_eq buf1 text (bytes "GET") then
      let u := p + 1 + strspn_sptab buf1 (p + 1)
      match strpbrk_sptab buf1 u with
      | none => (BAD_REQUEST, { c1 with m_method := GET, m_url := some u, m_version := none })
      | some q =>
        let buf2 := buf1.set q 0
        let v := q + 1 + strspn_sptab buf2 (q + 1)
        let c2 :=
          { c1 with m_method := GET, m_read_buf := buf2, m_url := some u, m_version := some v }
        if strcasecmp_eq buf2 v (bytes "HTTP/1.1") then
          let url :=
            if strncasecmp_eq buf2 u (bytes "http://") 7 then strchr buf2 (u + 7) 47
            else some u
          match url with
          | none => (BAD_REQUEST, { c2 with m_url := none })
          | some w =>
            if byteAt buf2 w = 47 then
              (NO_REQUEST, { c2 with m_url := some w, m_check_state := CHECK_STATE_HEADER })
            else (BAD_REQUEST, { c2 with m_url := some w })
        else (BAD_REQUEST, c2)
    else (BAD_REQUEST, c1)

/-- The function `http_conn::parse_headers`. -/
def parse_headers (c : http_conn) (text : Nat) : HTTP_CODE × http_conn :=
  if byteAt c.m_read_buf text = 0 then
    if c.m_content_length ≠ 0 then
      (NO_REQUEST, { c with m_check_state := CHECK_STATE_CONTENT })
    else (GET_REQUEST, c)
  else if strncasecmp_eq c.m_read_buf text (bytes "Connection:") 11 then
    let t := text + 11 + strspn_sptab c.m_read_buf (text + 11)
    if strcasecmp_eq c.m_read_buf t (bytes "keep-alive") then
      (NO_REQUEST, { c with m_linger := true })
    else (NO_REQUEST, c)
  else if strncasecmp_eq c.m_read_buf text (bytes "Content-Length:") 15 then
    let t := text + 15 + strspn_sptab c.m_read_buf (text + 15)
    (NO_REQUEST, { c with m_content_length := wrap32 (atol (cstr c.m_read_buf t)) })
  else if strncasecmp_eq c.m_read_buf text (bytes "Host:") 5 then
    let t := text + 5 + strspn_sptab c.m_read_buf (text + 5)
    (NO_REQUEST, { c with m_host := some t })
  else (NO_REQUEST, c)

/-- The index `text + m_content_length` at which `parse_content` stores the
terminator. -/
def content_end (c : http_conn) (text : Nat) : Int := (text : Int) + c.m_content_length

/-- The function `http_conn::parse_content`. The sum of the two `int`s is
wrapped to 32 bits; a store outside the buffer is not modelled (the buffer is
left as it is). -/
def parse_content (c : http_conn) (text : Nat) : HTTP_CODE × http_conn :=
  if (c.m_read_idx : Int) ≥ wrap32 (c.m_content_length + c.m_checked_idx) then
    let i := content_end c text
    (GET_REQUEST,
      { c with
        m_read_buf := if 0 ≤ i then c.m_read_buf.set i.toNat 0 else c.m_read_buf })
  else (NO_REQUEST, c)

/-! ## Resolving the file -/

/-- The file system as the code sees it: `stat` on a path (`none` when it
fails) and the address `mmap` returns for the file at a path. -/
structure file_system where
  stat : List Nat → Option file_stat
  mmap : List Nat → Int → Nat

/-- The document root. -/
def doc_root : List Nat := bytes "/var/www/html"

/-- The `n` bytes `strncpy` stores for the source string `s`. -/
def strncpy_bytes (s : List Nat) (n : Nat) : List Nat :=
  s.take n ++ List.replicate (n - s.length) 0

/-- The bit `S_IROTH` of a mode. -/
def S_IROTH (mode : Nat) : Bool := mode.testBit 2

/-- The macro `S_ISDIR`. -/
def S_ISDIR (mode : Nat) : Bool := (mode / 4096) % 16 == 4

/-- The function `http_conn::do_request`. A null `m_url` is read as the empty
string. -/
def do_request (fs : file_system) (c : http_conn) : HTTP_CODE × http_conn :=
  let len := doc_root.length
  let url := match c.m_url with
    | some u => cstr c.m_read_buf u
    | none => []
  let real_file :=
    write_at (write_at c.m_real_file 0 (doc_root ++ [0])) len
      (strncpy_bytes url (FILENAME_LEN - len - 1))
  let c1 := { c with m_real_file := real_file }
  match fs.stat (cstr real_file 0) with
  | none => (NO_RESOURCE, c1)
  | some st =>
    let c2 := { c1 with m_file_stat := st }
    if !S_IROTH st.st_mode then (FORBIDDEN_REQUEST, c2)
    else if S_ISDIR st.st_mode then (BAD_REQUEST, c2)
    else
      (FILE_REQUEST, { c2 with m_file_address := fs.mmap (cstr real_file 0) st.st_size })

/-! ## The main state machine -/

/-- The `while` loop of `process_read`. Every iteration uses one unit of fuel;
`none` means that the fuel ran out. -/
def process_read_loop (fs : file_system) :
    Nat → LINE_STATUS → http_conn → Option (HTTP_CODE × http_conn)
  | 0, _, _ => none
  | fuel + 1, line_status, c =>
    let cond : Bool × LINE_STATUS × http_conn :=
      if c.m_check_state = CHECK_STATE_CONTENT ∧ line_status = LINE_OK then
        (true, line_status, c)
      else
        let r := parse_line c
        (decide (r.1 = LINE_OK), r.1, r.2)
    if cond.1 then
      let line_status := cond.2.1
      let c0 := cond.2.2
      let text := c0.m_start_line
      let c1 := { c0 with m_start_line := c0.m_checked_idx }
      match c1.m_check_state with
      | CHECK_STATE_REQUESTLINE =>
        let r := parse_request_line c1 text
        if r.1 = BAD_REQUEST then some (BAD_REQUEST, r.2)
        else process_read_loop fs fuel line_status r.2
      | CHECK_STATE_HEADER =>
        let r := parse_headers c1 text
        if r.1 = BAD_REQUEST then some (BAD_REQUEST, r.2)
        else if r.1 = GET_REQUEST then some (do_request fs r.2)
        else process_read_loop fs fuel line_status r.2
      | CHECK_STATE_CONTENT =>
        let r := parse_content c1 text
        if r.1 = GET_REQUEST then some (do_request fs r.2)
        else process_read_loop fs fuel LINE_OPEN r.2
    else some (NO_REQUEST, cond.2.2)

/-- The function `http_conn::process_read`. The fuel is enough in every state
(`process_read_returns`): all iterations but one consume at least one byte of
the buffer. -/
def process_read (fs : file_system) (c : http_conn) : Option (HTTP_CODE × http_conn) :=
  process_read_loop fs (c.m_read_idx - c.m_checked_idx + 2) LINE_OK c

/-! ## Receiving -/

/-- One result of `recv`: bytes, `-1` with `EAGAIN`, `-1` with another errno,
or `0` (the peer closed the connection). -/
inductive recv_result where
  | data (bs : List Nat)
  | eagain
  | error
  | closed
  deriving DecidableEq, Repr

/-- The `while (true)` loop of `read`, one `recv` result per iteration. `recv`
stores at most the requested `READ_BUFFER_SIZE - m_read_idx` bytes. The result
is `none` when the list of results ends before the loop does. -/
def read_loop : List recv_result → http_conn → Option (Bool × http_conn)
  | [], _ => none
  | recv_result.eagain :: _, c => some (true, c)
  | recv_result.error :: _, c => some (false, c)
  | recv_result.closed :: _, c => some (false, c)
  | recv_result.data bs :: rs, c =>
    let got := bs.take (READ_BUFFER_SIZE - c.m_read_idx)
    if got.length = 0 then some (false, c)
    else
      read_loop rs
        { c with
          m_read_buf := write_at c.m_read_buf c.m_read_idx got
          m_read_idx := c.m_read_idx + got.length }

/-- The function `http_conn::read`. -/
def read (c : http_conn) (rs : List recv_result) : Option (Bool × http_conn) :=
  if c.m_read_idx ≥ READ_BUFFER_SIZE then some (false, c) else read_loop rs c

/-! ## Building the response -/

/-- The title of status 200. -/
def ok_200_title : List Nat := bytes "OK"

/-- The title of status 400. -/
def error_400_title : List Nat := bytes "Bad Request"

/-- The body of status 400. -/
def error_400_form : List Nat :=
  bytes "Your request has bad syntax or is inherently impossible to satisfy.\n"

/-- The title of status 403. -/
def error_403_title : List Nat := bytes "Forbidden"

/-- The body of status 403. -/
def error_403_form : List Nat :=
  bytes "You do not have permission to get file from this server.\n"

/-- The title of status 404. -/
def error_404_title : List Nat := bytes "Not Found"

/-- The body of status 404. -/
def error_404_form : List Nat :=
  bytes "The requested file was not found on this server.\n"

/-- The title of status 500. -/
def error_500_title : List Nat := bytes "Internal Error"

/-- The body of status 500. -/
def error_500_form : List Nat :=
  bytes "There was an unusual problem serving the requested file.\n"

/-- The output of the conversion `%d`. -/
def fmt_d (n : Int) : List Nat :=
  if n < 0 then 45 :: (Nat.toDigits 10 n.natAbs).map Char.toNat
  else (Nat.toDigits 10 n.natAbs).map Char.toNat

/-- The function `http_conn::add_response`, applied to the text `s` that the
format and its arguments produce. `vsnprintf` with room for `room` bytes stores
at most `room - 1` bytes of the text and a NUL, and returns the length of the
whole text. -/
def add_response (WRITE_BUFFER_SIZE : Nat) (c : http_conn) (s : List Nat) :
    Bool × http_conn :=
  if c.m_write_idx ≥ WRITE_BUFFER_SIZE then (false, c)
  else
    let room := WRITE_BUFFER_SIZE - 1 - c.m_write_idx
    let c1 :=
      { c with
        m_write_buf :=
          if room = 0 then c.m_write_buf
          else write_at c.m_write_buf c.m_write_idx (s.take (room - 1) ++ [0]) }
    if s.length ≥ room then (false, c1)
    else (true, { c1 with m_write_idx := c.m_write_idx + s.length })

/-- The function `http_conn::add_status_line`. -/
def add_status_line (WRITE_BUFFER_SIZE : Nat) (c : http_conn) (status : Int)
    (title : List Nat) : Bool × http_conn :=
  add_response WRITE_BUFFER_SIZE c
    (bytes "HTTP/1.1" ++ bytes " " ++ fmt_d status ++ bytes " " ++ title ++ bytes "\r\n")

/-- The function `http_conn::add_content_length`. -/
def add_content_length (WRITE_BUFFER_SIZE : Nat) (c : http_conn) (content_len : Int) :
    Bool × http_conn :=
  add_response WRITE_BUFFER_SIZE c (bytes "Content_Length: " ++ fmt_d content_len ++ bytes "\r\n")

/-- The function `http_conn::add_linger`. -/
def add_linger (WRITE_BUFFER_SIZE : Nat) (c : http_conn) : Bool × http_conn :=
  add_response WRITE_BUFFER_SIZE c
    (bytes "Connection: " ++ (if c.m_linger = true then bytes "keep-alive" else bytes "close")
      ++ bytes "\r\n")

/-- The function `http_conn::add_blank_line`. -/
def add_blank_line (WRITE_BUFFER_SIZE : Nat) (c : http_conn) : Bool × http_conn :=
  add_response WRITE_BUFFER_SIZE c (bytes "\r\n")

/-- The function `http_conn::add_content`. -/
def add_content (WRITE_BUFFER_SIZE : Nat) (c : http_conn) (content : List Nat) :
    Bool × http_conn :=
  add_response WRITE_BUFFER_SIZE c content

/-- The function `http_conn::add_headers`. The source declares it `bool` and
its body ends without a `return`; flowing off the end of such a function is
undefined behaviour in C++. This definition is the state in a build in which
control returns to the caller, which never reads the value: what is stated
about the program behind a call of this function holds for such a build
only. -/
def add_headers (WRITE_BUFFER_SIZE : Nat) (c : http_conn) (content_len : Int) : http_conn :=
  let c1 := (add_content_length WRITE_BUFFER_SIZE c content_len).2
  let c2 := (add_linger WRITE_BUFFER_SIZE c1).2
  (add_blank_line WRITE_BUFFER_SIZE c2).2

/-- The three error cases of `process_write` up to their `break`: status line,
headers, then the body, whose failure makes the function return false. -/
def error_case (WRITE_BUFFER_SIZE : Nat) (c : http_conn) (status : Int)
    (title form : List Nat) : Bool × http_conn :=
  let c1 := (add_status_line WRITE_BUFFER_SIZE c status title).2
  let c2 := add_headers WRITE_BUFFER_SIZE c1 form.length
  add_content WRITE_BUFFER_SIZE c2 form

/-- The statements of `process_write` behind the `switch`. -/
def one_segment (c : http_conn) : Bool × http_conn :=
  (true, { c with m_iv0 := ⟨iov_base.write_buf, c.m_write_idx⟩, m_iv_count := 1 })

/-- The function `http_conn::process_write`. The case `FORBIDDEN_REQUEST`
passes the status 404; the case `FILE_REQUEST` of an empty file has no `break`
and runs into `default`; `NO_RESOURCE` has no case of its own. The undeclared
`error_500_from` of the first case is read as `error_500_form`. -/
def process_write (WRITE_BUFFER_SIZE : Nat) (c : http_conn) (ret : HTTP_CODE) :
    Bool × http_conn :=
  match ret with
  | INTERNAL_ERROR =>
    let r := error_case WRITE_BUFFER_SIZE c 500 error_500_title error_500_form
    if r.1 then one_segment r.2 else (false, r.2)
  | BAD_REQUEST =>
    let r := error_case WRITE_BUFFER_SIZE c 400 error_400_title error_400_form
    if r.1 then one_segment r.2 else (false, r.2)
  | FORBIDDEN_REQUEST =>
    let r := error_case WRITE_BUFFER_SIZE c 404 error_403_title error_403_form
    if r.1 then one_segment r.2 else (false, r.2)
  | FILE_REQUEST =>
    let c1 := (add_status_line WRITE_BUFFER_SIZE c 200 ok_200_title).2
    if c1.m_file_stat.st_size ≠ 0 then
      let c2 := add_headers WRITE_BUFFER_SIZE c1 (wrap32 c1.m_file_stat.st_size)
      (true,
        { c2 with
          m_iv0 := ⟨iov_base.write_buf, c2.m_write_idx⟩
          m_iv1 := ⟨iov_base.file_address c2.m_file_address, c2.m_file_stat.st_size⟩
          m_iv_count := 2 })
    else
      let ok_string := bytes "<html><body></body></html>"
      let c2 := add_headers WRITE_BUFFER_SIZE c1 ok_string.length
      let r := add_content WRITE_BUFFER_SIZE c2 ok_string
      (false, r.2)
  | _ => (false, c)

/-! ## Sending -/

/-- The function `http_conn::unmap`. -/
def unmap (c : http_conn) : http_conn :=
  if c.m_file_address ≠ 0 then
    { c with
      trace := sys_call.munmap c.m_file_address c.m_file_stat.st_size :: c.trace
      m_file_address := 0 }
  else c

/-- One result of `writev`: the number of bytes accepted, `-1` with `EAGAIN`,
or `-1` with another errno. -/
inductive writev_result where
  | sent (n : Nat)
  | eagain
  | error
  deriving DecidableEq, Repr

/-- The call `modfd(m_epollfd, m_sockfd, ev)`. -/
def modfd (c : http_conn) (ev : sys_call) : http_conn := { c with trace := ev :: c.trace }

/-- The `while (1)` loop of `write`, one `writev` result per iteration. Every
call of `writev` is given `m_iv` and `m_iv_count` as they are. The result is
`none` when the list of results ends before the loop does. -/
def write_loop (WRITE_BUFFER_SIZE : Nat) :
    List writev_result → Int → Int → http_conn → Option (Bool × http_conn)
  | [], _, _, _ => none
  | r :: rs, bytes_to_send, bytes_have_send, c =>
    let c1 := { c with trace := sys_call.writev c.m_iv0 c.m_iv1 c.m_iv_count :: c.trace }
    match r with
    | writev_result.eagain => some (true, modfd c1 sys_call.modfd_out)
    | writev_result.error => some (false, unmap c1)
    | writev_result.sent temp =>
      let bytes_to_send := bytes_to_send - temp
      let bytes_have_send := bytes_have_send + temp
      if bytes_to_send ≤ bytes_have_send then
        let c2 := unmap c1
        if c2.m_linger then some (true, modfd (init WRITE_BUFFER_SIZE c2) sys_call.modfd_in)
        else some (false, modfd c2 sys_call.modfd_in)
      else write_loop WRITE_BUFFER_SIZE rs bytes_to_send bytes_have_send c1

/-- The function `http_conn::write`. -/
def write (WRITE_BUFFER_SIZE : Nat) (c : http_conn) (rs : List writev_result) :
    Option (Bool × http_conn) :=
  if c.m_write_idx = 0 then some (true, init WRITE_BUFFER_SIZE (modfd c sys_call.modfd_in))
  else write_loop WRITE_BUFFER_SIZE rs c.m_write_idx 0 c

/-! ## Scenarios -/

/-- The bytes of the response that are in the write buffer. -/
def rendered (c : http_conn) : List Nat := c.m_write_buf.take c.m_write_idx

/-- One readiness event: `read` is given the chunk and then `EAGAIN`, and
`process_read` runs on the result. -/
def on_readable (fs : file_system) (c : http_conn) (chunk : List Nat) :
    Option (HTTP_CODE × http_conn) :=
  match read c [recv_result.data chunk, recv_result.eagain] with
  | some (true, c1) => process_read fs c1
  | _ => none

/-- The chunks are delivered one readiness event at a time; the delivery stops
at the first result other than `NO_REQUEST`. -/
def deliver (fs : file_system) : http_conn → List (List Nat) → Option (HTTP_CODE × http_conn)
  | c, [] => some (NO_REQUEST, c)
  | c, chunk :: rest =>
    match on_readable fs c chunk with
    | some (NO_REQUEST, c1) =>
      if rest.isEmpty then some (NO_REQUEST, c1) else deliver fs c1 rest
    | r => r

/-- A file system with one regular, world-readable file of five bytes,
`/var/www/html/index.html`, and the directory `/var/www/html/`. -/
def example_fs : file_system :=
  { stat := fun p =>
      if p = bytes "/var/www/html/index.html" then some ⟨0o100644, 5⟩
      else if p = bytes "/var/www/html/" then some ⟨0o040755, 4096⟩
      else none
    mmap := fun _ _ => 4096 }

/-- A connection whose response to a request for a file of 1000 bytes, mapped
at address 4096, has been prepared by `process_write`. -/
def prepared_file_response : http_conn :=
  (process_write 1024
    { init 1024 blank with m_file_stat := ⟨0o100644, 1000⟩, m_file_address := 4096 }
    FILE_REQUEST).2

/-! ## Notions used in the statements -/

/-- The state `c'` differs from `c` in the write buffer and its cursor only. -/
def write_frame (c c' : http_conn) : Prop :=
  ∃ buf idx, c' = { c with m_write_buf := buf, m_write_idx := idx }

/-- The write buffer has the capacity `W` and holds exactly the text `pre` in
front of its cursor. -/
def holds (W : Nat) (c : http_conn) (pre : List Nat) : Prop :=
  c.m_write_buf.length = W ∧ rendered c = pre ∧ c.m_write_idx = pre.length

/-- The head of a response: status line, length header, connection header
and blank line. -/
def response_head (status : Int) (title : List Nat) (content_len : Int) (linger : Bool) :
    List Nat :=
  bytes "HTTP/1.1" ++ bytes " " ++ fmt_d status ++ bytes " " ++ title ++ bytes "\r\n"
    ++ (bytes "Content_Length: " ++ fmt_d content_len ++ bytes "\r\n")
    ++ (bytes "Connection: " ++ (if linger = true then bytes "keep-alive" else bytes "close")
      ++ bytes "\r\n")
    ++ bytes "\r\n"

/-- The NUL-terminated string `s` stands at offset `p` of `buf`, followed by
its terminator and then by `rest`. -/
def str_at (buf : List Nat) (p : Nat) (s rest : List Nat) : Prop :=
  buf.drop p = s ++ 0 :: rest ∧ ∀ b ∈ s, b ≠ 0

/-- The first token of a string and the string behind the blanks and tabs that
follow the token; `none` when the string has no blank or tab. -/
def split_token (s : List Nat) : Option (List Nat × List Nat) :=
  let tok := s.takeWhile (fun b => !isSpTab b)
  if tok.length < s.length then
    some (tok, (s.drop (tok.length + 1)).dropWhile isSpTab)
  else none

/-- The URL that `parse_request_line` keeps for a line, computed on the bytes
of the line; `none` for a line it refuses. -/
def request_line_url (s : List Nat) : Option (List Nat) :=
  match split_token s with
  | none => none
  | some (m, s2) =>
    if caseEq m (bytes "GET") then
      match split_token s2 with
      | none => none
      | some (url, ver) =>
        if caseEq ver (bytes "HTTP/1.1") then
          if caseEq (url.take 7) (bytes "http://") then
            if (url.drop 7).dropWhile (fun b => b != 47) = [] then none
            else some ((url.drop 7).dropWhile (fun b => b != 47))
          else if url.head? = some 47 then some url
          else none
        else none
    else none

/-- The line is a method token equal to "GET" up to case, blanks or tabs, a
non-empty URL token, blanks or tabs, and a remainder equal to "HTTP/1.1" up to
case; the URL token begins with a slash, or with "http://" up to case and has
a slash behind that prefix. -/
def is_request_line (line m ws1 url ws2 ver : List Nat) : Prop :=
  line = m ++ ws1 ++ url ++ ws2 ++ ver
  ∧ caseEq m (bytes "GET") = true
  ∧ ws1 ≠ [] ∧ (∀ b ∈ ws1, isSpTab b = true)
  ∧ url ≠ [] ∧ (∀ b ∈ url, isSpTab b = false)
  ∧ ws2 ≠ [] ∧ (∀ b ∈ ws2, isSpTab b = true)
  ∧ caseEq ver (bytes "HTTP/1.1") = true
  ∧ (url.head? = some 47 ∨ (caseEq (url.take 7) (bytes "http://") = true ∧ 47 ∈ url.drop 7))

/-- The URL to be stored for a URL token: the token itself when it begins
with a slash, else its suffix from the first slash behind the seven bytes of
the prefix. -/
def stored_url (url : List Nat) : List Nat :=
  if url.head? = some 47 then url else (url.drop 7).dropWhile (fun b => b != 47)

/-- A connection whose read buffer holds the tokenized request line
"GET http://host/a HTTP/1.1" at offset 0. -/
def request_line_example : http_conn :=
  { init 1024 blank with
    m_read_buf := bytes "GET http://host/a HTTP/1.1" ++ [0, 0]
    m_read_idx := 28
    m_checked_idx := 28 }

/-- The connection after `init()` and one `read()` that received `req`. -/
def received (W : Nat) (c : http_conn) (req : List Nat) : http_conn :=
  { init W c with
    m_read_buf := req ++ List.replicate (READ_BUFFER_SIZE - req.length) 0
    m_read_idx := req.length }

/-- The body length a header line announces: the value of a "Content-Length:"
header as the code reads it, and 0 for every other line. -/
def announced_length (h : List Nat) : Int :=
  if caseEq (h.take 15) (bytes "Content-Length:") then
    wrap32 (atol ((h.drop 15).dropWhile isSpTab))
  else 0

/-- The path `do_request` resolves for a URL: the document root followed by
the URL cut to the room left in `m_real_file`. -/
def resolved_path (url : List Nat) : List Nat :=
  doc_root ++ url.take (FILENAME_LEN - doc_root.length - 1)

/-- The bytes of a list of header lines, each ended by CR LF. -/
def header_block : List (List Nat) → List Nat
  | [] => []
  | h :: t => h ++ CR :: LF :: header_block t

/-- The state of a connection between two header lines of a request whose
stored URL is `U`: the main state is `CHECK_STATE_HEADER`, the line start is at
the parse cursor, no body has been announced, the URL is a string of the read
buffer in front of the parse cursor, nothing has been written to the write
buffer of capacity `W`, and the path buffer is still zero-filled. -/
def headers_inv (W : Nat) (U : List Nat) (c : http_conn) : Prop :=
  c.m_check_state = CHECK_STATE_HEADER
  ∧ c.m_start_line = c.m_checked_idx
  ∧ c.m_content_length = 0
  ∧ (∃ w r, c.m_url = some w ∧ str_at c.m_read_buf w U r ∧ w + U.length < c.m_checked_idx)
  ∧ holds W c []
  ∧ c.m_real_file = List.replicate FILENAME_LEN 0

/-- The bytes of a request without a body: request line, header lines and the
empty line, each ended by CR LF. -/
def request_bytes (line : List Nat) (hs : List (List Nat)) : List Nat :=
  line ++ CR :: LF :: (header_block hs ++ [CR, LF])

/-- A freshly initialised connection that has received a request line ended
by a bare line feed. -/
def bare_lf_example : http_conn :=
  received 1024 blank (bytes "GET / HTTP/1.1\n")

/-- The connection `prepared_file_response` after a `write` that sent all 60
header bytes in one `writev`. -/
def write_done_example : http_conn :=
  { prepared_file_response with
    m_file_address := 0
    trace :=
      [sys_call.modfd_in, sys_call.munmap 4096 1000,
        sys_call.writev ⟨iov_base.write_buf, 60⟩ ⟨iov_base.file_address 4096, 1000⟩ 2] }

/-- The connection after a request of exactly `READ_BUFFER_SIZE` bytes has
arrived in two parts: the 39 bytes of request line and headers, which announce
a body of 985 bytes, have been processed, and `read` has received the body. -/
def full_buffer_example : Option http_conn :=
  (on_readable example_fs (init 1024 blank)
      (bytes "GET / HTTP/1.1\r\nContent-Length: 985\r\n\r\n")).bind
    (fun r => (read r.2 [recv_result.data (List.replicate 985 120), recv_result.eagain]).map
      Prod.snd)

/-- The connection in which the loop of `process_read` calls `parse_content`
when the request "GET / HTTP/1.1\r\nContent-Length: -100\r\n\r\n" has been
received: the tokenizer has delivered the empty line and `parse_headers` has
switched to the third state. -/
def negative_length_example : http_conn :=
  let c := received 1024 blank (bytes "GET / HTTP/1.1\r\nContent-Length: -100\r\n\r\n")
  let c1 := (parse_line c).2
  let c2 := (parse_request_line { c1 with m_start_line := c1.m_checked_idx } c1.m_start_line).2
  let c3 := (parse_line c2).2
  let c4 := (parse_headers { c3 with m_start_line := c3.m_checked_idx } c3.m_start_line).2
  let c5 := (parse_line c4).2
  (parse_headers { c5 with m_start_line := c5.m_checked_idx } c5.m_start_line).2

/-- The contents of the path buffer after `do_request` for the URL `url`: the
resolved path, its terminator, and the padding `strncpy` stores. -/
def path_bytes (url : List Nat) : List Nat :=
  resolved_path url
    ++ 0 :: List.replicate (FILENAME_LEN - doc_root.length - 1 - url.length) 0

/-- A connection whose validated URL is "/index.html", at offset 4 of the read
buffer. -/
def url_example : http_conn :=
  { init 1024 blank with
    m_read_buf := bytes "GET\x00/index.html\x00HTTP/1.1\x00\x00"
    m_read_idx := 26
    m_checked_idx := 26
    m_start_line := 26
    m_check_state := CHECK_STATE_HEADER
    m_url := some 4 }

/-- The received bytes the tokenizer has not looked at: the range from the
parse cursor to the read cursor. -/
def unread (c : http_conn) : List Nat :=
  (c.m_read_buf.drop c.m_checked_idx).take (c.m_read_idx - c.m_checked_idx)

/-- One call in a run of the tokenizer over a buffer that grows at its end: a
call of `parse_line`, or a call of `read` with the given results of `recv`. -/
inductive scan_op where
  | scan
  | receive (rs : List recv_result)
  deriving DecidableEq, Repr

/-- The byte ranges of the lines a run returns as complete, in the order of
the calls: a line reaches from `start`, the parse cursor behind the previous
complete line, to the parse cursor behind its own terminator. -/
def lines_emitted : http_conn → Nat → List scan_op → List (Nat × Nat)
  | _, _, [] => []
  | c, start, scan_op.scan :: ops =>
    if (parse_line c).1 = LINE_OK then
      (start, (parse_line c).2.m_checked_idx)
        :: lines_emitted (parse_line c).2 (parse_line c).2.m_checked_idx ops
    else lines_emitted (parse_line c).2 start ops
  | c, start, scan_op.receive rs :: ops =>
    match read c rs with
    | some (_, c1) => lines_emitted c1 start ops
    | none => lines_emitted c start ops

/-- The connection states that `init()` followed by any calls of `read`,
`parse_line` and `process_read` produces, for every capacity of the write
buffer, every sequence of results of `recv` and every file system. -/
inductive reachable : http_conn → Prop where
  | of_init (W : Nat) (c : http_conn) : reachable (init W c)
  | of_read (c c1 : http_conn) (rs : List recv_result) (b : Bool) :
      reachable c → read c rs = some (b, c1) → reachable c1
  | of_parse_line (c : http_conn) : reachable c → reachable (parse_line c).2
  | of_process_read (fs : file_system) (c c1 : http_conn) (r : HTTP_CODE) :
      reachable c → process_read fs c = some (r, c1) → reachable c1

/-- The cursor invariant: the parse cursor and the line start are at most the
read cursor, which is at most the capacity of the read buffer. -/
def cursors_ok (c : http_conn) : Prop :=
  c.m_checked_idx ≤ c.m_read_idx ∧ c.m_start_line ≤ c.m_read_idx
    ∧ c.m_read_idx ≤ READ_BUFFER_SIZE

theorem length_write_at (buf : List Nat) (i : Nat) (bs : List Nat)
    (h : i + bs.length ≤ buf.length) : (write_at buf i bs).length = buf.length := by
  simp [write_at]
  omega

theorem take_write_at (buf : List Nat) (i : Nat) (bs : List Nat)
    (h : i + bs.length ≤ buf.length) (n : Nat) (hn : n ≤ bs.length) :
    (write_at buf i bs).take (i + n) = buf.take i ++ bs.take n := by
  unfold write_at
  rw [List.take_take, Nat.min_eq_left (by omega), List.append_assoc, List.take_append_eq_append_take]
  have h1 : (List.take i buf).length = i := by simp; omega
  rw [h1, List.take_of_length_le (by omega)]
  congr 1
  have : i + n - i = n := by omega
  rw [this, List.take_append_of_le_length hn]

/-- The record `add_response` returns differs from its argument in the write
buffer and the write cursor only. -/
theorem add_response_frame (W : Nat) (c : http_conn) (s : List Nat) :
    (add_response W c s).2 =
      { c with
        m_write_buf := (add_response W c s).2.m_write_buf
        m_write_idx := (add_response W c s).2.m_write_idx } := by
  simp only [add_response]
  split_ifs <;> rfl

/-- A text that fits is appended: the cursor moves behind it and the bytes in
front of the cursor are the old ones followed by the text. -/
theorem add_response_fits (W : Nat) (c : http_conn) (s : List Nat)
    (hlen : c.m_write_buf.length = W) (hfit : c.m_write_idx + s.length + 2 ≤ W) :
    (add_response W c s).1 = true
    ∧ (add_response W c s).2.m_write_idx = c.m_write_idx + s.length
    ∧ (add_response W c s).2.m_write_buf.length = W
    ∧ rendered (add_response W c s).2 = rendered c ++ s := by
  have h1 : ¬ c.m_write_idx ≥ W := by omega
  have h2 : ¬ s.length ≥ W - 1 - c.m_write_idx := by omega
  have h3 : ¬ W - 1 - c.m_write_idx = 0 := by omega
  have h4 : List.take (W - 1 - c.m_write_idx - 1) s = s := List.take_of_length_le (by omega)
  simp only [add_response, h1, h2, h3, h4, if_false, rendered]
  refine ⟨trivial, trivial, ?_, ?_⟩
  · rw [length_write_at _ _ _ (by simp; omega)]; exact hlen
  · have := take_write_at c.m_write_buf c.m_write_idx (s ++ [0]) (by simp; omega) s.length (by simp)
    simpa using this

theorem write_frame_refl (c : http_conn) : write_frame c c := ⟨_, _, rfl⟩

theorem write_frame_trans {a b c : http_conn} (h1 : write_frame a b) (h2 : write_frame b c) :
    write_frame a c := by
  obtain ⟨b1, i1, rfl⟩ := h1
  obtain ⟨b2, i2, rfl⟩ := h2
  exact ⟨b2, i2, rfl⟩

theorem add_response_step (W : Nat) (c : http_conn) (s pre : List Nat)
    (h : holds W c pre) (hfit : pre.length + s.length + 2 ≤ W) :
    (add_response W c s).1 = true ∧ holds W (add_response W c s).2 (pre ++ s)
    ∧ write_frame c (add_response W c s).2 := by
  obtain ⟨hlen, hr, hi⟩ := h
  have := add_response_fits W c s hlen (by omega)
  refine ⟨this.1, ⟨this.2.2.1, ?_, ?_⟩, ⟨_, _, add_response_frame W c s⟩⟩
  · rw [this.2.2.2, hr]
  · rw [this.2.1, hi]; simp

theorem write_frame_linger {c c' : http_conn} (h : write_frame c c') : c'.m_linger = c.m_linger := by
  obtain ⟨b, i, rfl⟩ := h; rfl

theorem head_fits (W : Nat) (c : http_conn) (status : Int) (title : List Nat)
    (content_len : Int) (hc : holds W c [])
    (hfit : (response_head status title content_len c.m_linger).length + 2 ≤ W) :
    holds W (add_headers W (add_status_line W c status title).2 content_len)
      (response_head status title content_len c.m_linger)
    ∧ write_frame c (add_headers W (add_status_line W c status title).2 content_len) := by
  simp only [response_head, List.length_append] at hfit
  have s1 := add_response_step W c
    (bytes "HTTP/1.1" ++ bytes " " ++ fmt_d status ++ bytes " " ++ title ++ bytes "\r\n") []
    hc (by simp only [List.length_append, List.length_nil]; omega)
  have s2 := add_response_step W _ (bytes "Content_Length: " ++ fmt_d content_len ++ bytes "\r\n") _
    s1.2.1 (by simp only [List.length_append, List.length_nil]; omega)
  have hl := write_frame_linger (write_frame_trans s1.2.2 s2.2.2)
  have s3 := add_response_step W _
    (bytes "Connection: " ++ (if c.m_linger = true then bytes "keep-alive" else bytes "close")
      ++ bytes "\r\n") _
    s2.2.1 (by simp only [List.length_append, List.length_nil]; omega)
  have s4 := add_response_step W _ (bytes "\r\n") _
    s3.2.1 (by simp only [List.length_append, List.length_nil]; omega)
  simp only [List.nil_append] at s2 s3 s4 hl
  simp only [add_headers, add_status_line, add_content_length, add_linger, add_blank_line,
    response_head, hl]
  exact ⟨s4.2.1, write_frame_trans (write_frame_trans (write_frame_trans s1.2.2 s2.2.2) s3.2.2) s4.2.2⟩

theorem add_response_write_frame (W : Nat) (c : http_conn) (s : List Nat) :
    write_frame c (add_response W c s).2 := ⟨_, _, add_response_frame W c s⟩

theorem add_status_line_frame (W : Nat) (c : http_conn) (status : Int) (title : List Nat) :
    write_frame c (add_status_line W c status title).2 := add_response_write_frame _ _ _

theorem add_headers_frame (W : Nat) (c : http_conn) (n : Int) :
    write_frame c (add_headers W c n) :=
  write_frame_trans (write_frame_trans (add_response_write_frame _ _ _)
    (add_response_write_frame _ _ _)) (add_response_write_frame _ _ _)

theorem error_case_fits (W : Nat) (c : http_conn) (status : Int) (title form : List Nat)
    (hc : holds W c [])
    (hfit : (response_head status title form.length c.m_linger ++ form).length + 2 ≤ W) :
    (error_case W c status title form).1 = true
    ∧ holds W (error_case W c status title form).2
        (response_head status title form.length c.m_linger ++ form)
    ∧ write_frame c (error_case W c status title form).2 := by
  rw [List.length_append] at hfit
  have h1 := head_fits W c status title form.length hc (by omega)
  have h2 := add_response_step W _ form _ h1.1 (by omega)
  exact ⟨h2.1, h2.2.1, write_frame_trans h1.2 h2.2.2⟩

/-- What `process_write` does for an error page that fits: it succeeds with
one segment, the write buffer up to its cursor, which holds the head and the
body. Nothing but the write buffer and the descriptor changes. -/
theorem one_segment_error_case (W : Nat) (c : http_conn) (status : Int) (title form : List Nat)
    (hc : holds W c [])
    (hfit : (response_head status title form.length c.m_linger ++ form).length + 2 ≤ W)
    (r : Bool × http_conn)
    (hr : r = (if (error_case W c status title form).1 then
        one_segment (error_case W c status title form).2
      else (false, (error_case W c status title form).2))) :
    r.1 = true ∧ r.2.m_iv_count = 1
    ∧ r.2.m_iv0 = ⟨iov_base.write_buf, r.2.m_write_idx⟩
    ∧ rendered r.2 = response_head status title form.length c.m_linger ++ form := by
  have h := error_case_fits W c status title form hc hfit
  rw [h.1] at hr
  subst hr
  refine ⟨rfl, rfl, rfl, ?_⟩
  exact h.2.1.2.1

/-! ### Evaluations at concrete inputs -/

set_option maxRecDepth 100000 in
/-- C1 (defect of the code): a request with a five byte body that arrives as
headers plus "he" and then "llo" is never completed (`NO_REQUEST` after the
last chunk), while the same bytes delivered at once are resolved to
`FILE_REQUEST`: `parse_content` measures the body from `m_checked_idx`, which
`parse_line` has moved into the body in between. -/
theorem process_read_split_body_differs :
    (deliver example_fs (init 1024 blank)
        [bytes "GET /index.html HTTP/1.1\r\nContent-Length: 5\r\n\r\nhe",
          bytes "llo"]).map Prod.fst = some NO_REQUEST
    ∧ (deliver example_fs (init 1024 blank)
        [bytes "GET /index.html HTTP/1.1\r\nContent-Length: 5\r\n\r\nhello"]).map Prod.fst
      = some FILE_REQUEST := by
  decide

/-- C6 (defect of the code): `process_write` has no case for `NO_RESOURCE`; in
every state and for every capacity it takes the `default` branch, returns
false and leaves the connection, its write buffer included, as it was. -/
theorem process_write_no_resource_fails (W : Nat) (c : http_conn) :
    process_write W c NO_RESOURCE = (false, c) := by
  rfl

set_option maxRecDepth 100000 in
/-- C9 (defect of the code): the length header is emitted as
"Content_Length", with an underscore; the rendered bytes differ from the wire
format "Content-Length". -/
theorem process_write_header_name :
    (process_write 1024 (init 1024 blank) BAD_REQUEST).1 = true
    ∧ rendered (process_write 1024 (init 1024 blank) BAD_REQUEST).2
      = bytes "HTTP/1.1 400 Bad Request\r\nContent_Length: 68\r\nConnection: close\r\n\r\n"
        ++ error_400_form
    ∧ rendered (process_write 1024 (init 1024 blank) BAD_REQUEST).2
      ≠ bytes "HTTP/1.1 400 Bad Request\r\nContent-Length: 68\r\nConnection: close\r\n\r\n"
        ++ error_400_form := by
  decide

set_option maxRecDepth 100000 in
/-- C10 (defect of the code): the prepared response has 60 header bytes and
1000 file bytes. When `writev` accepts 10 and then 30 bytes, `write` takes the
response for sent (it unmaps the file and returns the close decision) after 40
of 1060 bytes, and both calls of `writev` were given the same, unadvanced
descriptor. -/
theorem write_completes_early :
    prepared_file_response.m_iv0 = ⟨iov_base.write_buf, 60⟩
    ∧ prepared_file_response.m_iv1 = ⟨iov_base.file_address 4096, 1000⟩
    ∧ (write 1024 prepared_file_response
          [writev_result.sent 10, writev_result.sent 30]).map
        (fun r => (r.1, r.2.m_file_address, r.2.trace))
      = some (false, 0,
          [sys_call.modfd_in, sys_call.munmap 4096 1000,
            sys_call.writev ⟨iov_base.write_buf, 60⟩ ⟨iov_base.file_address 4096, 1000⟩ 2,
            sys_call.writev ⟨iov_base.write_buf, 60⟩ ⟨iov_base.file_address 4096, 1000⟩ 2]) := by
  decide

/-- C8 (defect of the code): for a resolved file of size 0 the case
`FILE_REQUEST` of `process_write` has no `break` and runs into `default`:
in every state the function returns false and the send descriptor keeps its
old segment count. -/
theorem process_write_empty_file_fails (W : Nat) (c : http_conn) (mode : Nat) :
    (process_write W { c with m_file_stat := ⟨mode, 0⟩ } FILE_REQUEST).1 = false
    ∧ (process_write W { c with m_file_stat := ⟨mode, 0⟩ } FILE_REQUEST).2.m_iv_count
      = c.m_iv_count := by
  obtain ⟨b1, i1, e1⟩ := add_status_line_frame W { c with m_file_stat := ⟨mode, 0⟩ } 200 ok_200_title
  have hs : (add_status_line W { c with m_file_stat := ⟨mode, 0⟩ } 200 ok_200_title).2.m_file_stat
      = ⟨mode, 0⟩ := by rw [e1]
  simp only [process_write, hs, ne_eq, not_true_eq_false, if_false, true_and]
  obtain ⟨b2, i2, e2⟩ := write_frame_trans (write_frame_trans
    (add_status_line_frame W { c with m_file_stat := ⟨mode, 0⟩ } 200 ok_200_title)
    (add_headers_frame W _ (bytes "<html><body></body></html>").length))
    (add_response_write_frame W _ (bytes "<html><body></body></html>"))
  simp only [add_content]
  rw [e2]

/-! ### Lists -/

theorem takeWhile_append_stop (p : Nat → Bool) (s : List Nat) (x : Nat) (rest : List Nat)
    (hs : ∀ b ∈ s, p b = true) (hx : p x = false) : (s ++ x :: rest).takeWhile p = s := by
  induction s with
  | nil => simp [hx]
  | cons a t ih =>
    have ha : p a = true := hs a (by simp)
    simp only [List.cons_append, List.takeWhile_cons, ha, if_true]
    rw [ih (fun b hb => hs b (by simp [hb]))]

theorem dropWhile_append_stop (p : Nat → Bool) (s : List Nat) (x : Nat) (rest : List Nat)
    (hs : ∀ b ∈ s, p b = true) (hx : p x = false) : (s ++ x :: rest).dropWhile p = x :: rest := by
  induction s with
  | nil => simp [hx]
  | cons a t ih =>
    have ha : p a = true := hs a (by simp)
    simp only [List.cons_append, List.dropWhile_cons, ha, if_true]
    rw [ih (fun b hb => hs b (by simp [hb]))]

theorem take_length_takeWhile (p : Nat → Bool) (s : List Nat) :
    s.take (s.takeWhile p).length = s.takeWhile p := by
  induction s with
  | nil => rfl
  | cons a t ih =>
    by_cases ha : p a = true
    · simp [List.takeWhile_cons, ha, ih]
    · simp [List.takeWhile_cons, ha]

theorem drop_length_takeWhile (p : Nat → Bool) (s : List Nat) :
    s.drop (s.takeWhile p).length = s.dropWhile p := by
  induction s with
  | nil => rfl
  | cons a t ih =>
    by_cases ha : p a = true
    · simp [List.takeWhile_cons, List.dropWhile_cons, ha, ih]
    · simp [List.takeWhile_cons, List.dropWhile_cons, ha]

theorem length_takeWhile_le (p : Nat → Bool) (s : List Nat) :
    (s.takeWhile p).length ≤ s.length := by
  induction s with
  | nil => simp
  | cons a t ih =>
    by_cases ha : p a = true
    · simp [List.takeWhile_cons, ha, ih]
    · simp [List.takeWhile_cons, ha]

theorem mem_takeWhile_imp (p : Nat → Bool) (s : List Nat) :
    ∀ b ∈ s.takeWhile p, p b = true := by
  induction s with
  | nil => simp
  | cons a t ih =>
    by_cases ha : p a = true
    · simp only [List.takeWhile_cons, ha, if_true, List.mem_cons]
      rintro b (rfl | hb)
      · exact ha
      · exact ih b hb
    · simp [List.takeWhile_cons, ha]

/-- The element behind a proper `takeWhile` prefix fails the test. -/
theorem dropWhile_head_not (p : Nat → Bool) (s : List Nat) (h : (s.takeWhile p).length < s.length) :
    ∃ x t, s.dropWhile p = x :: t ∧ p x = false := by
  induction s with
  | nil => simp at h
  | cons a t ih =>
    by_cases ha : p a = true
    · simp only [List.takeWhile_cons, ha, if_true, List.length_cons, Nat.add_lt_add_iff_right] at h
      simp only [List.dropWhile_cons, ha, if_true]
      exact ih h
    · exact ⟨a, t, by simp [List.dropWhile_cons, ha], by simpa using ha⟩

/-! ### Strings in a buffer -/

theorem byteAt_of_drop {buf : List Nat} {p x : Nat} {t : List Nat} (h : buf.drop p = x :: t) :
    byteAt buf p = x := by
  have := List.getElem?_drop buf p 0
  rw [h] at this
  simp at this
  simp [byteAt, ← this]

theorem byteAt_of_drop_nil {buf : List Nat} {p : Nat} (h : buf.drop p = []) :
    byteAt buf p = 0 := by
  have := List.getElem?_drop buf p 0
  rw [h] at this
  simp at this
  simp [byteAt, List.getElem?_eq_none this]

theorem cstr_of_str_at {buf : List Nat} {p : Nat} {s rest : List Nat} (h : str_at buf p s rest) :
    cstr buf p = s := by
  unfold cstr
  rw [h.1]
  exact takeWhile_append_stop _ s 0 rest (fun b hb => by simpa using h.2 b hb) (by simp)

theorem str_at_lt {buf : List Nat} {p : Nat} {s rest : List Nat} (h : str_at buf p s rest) :
    p + s.length < buf.length := by
  have := congrArg List.length h.1
  simp at this
  omega

theorem str_at_drop {buf : List Nat} {p : Nat} {s rest : List Nat} (h : str_at buf p s rest)
    (n : Nat) (hn : n ≤ s.length) : str_at buf (p + n) (s.drop n) rest := by
  refine ⟨?_, fun b hb => h.2 b (List.mem_of_mem_drop hb)⟩
  rw [← List.drop_drop, h.1, List.drop_append_of_le_length hn]

theorem str_at_cut {buf : List Nat} {p : Nat} {s rest : List Nat} (h : str_at buf p s rest)
    (k : Nat) (hk : k < s.length) :
    str_at (buf.set (p + k) 0) p (s.take k) (s.drop (k + 1) ++ 0 :: rest)
    ∧ str_at (buf.set (p + k) 0) (p + k + 1) (s.drop (k + 1)) rest := by
  have h1 : (buf.set (p + k) 0).drop p = s.take k ++ 0 :: (s.drop (k + 1) ++ 0 :: rest) := by
    rw [List.drop_set, if_neg (by omega), h.1]
    have : p + k - p = k := by omega
    rw [this, List.set_append_left _ _ hk, List.set_eq_take_append_cons_drop, if_pos hk]
    simp
  refine ⟨⟨h1, fun b hb => h.2 b (List.mem_of_mem_take hb)⟩, ?_,
    fun b hb => h.2 b (List.mem_of_mem_drop hb)⟩
  have h2 := congrArg (List.drop (k + 1)) h1
  rw [List.drop_drop] at h2
  rw [show p + k + 1 = p + (k + 1) by omega, h2]
  have h3 : (s.take k ++ [0]).length = k + 1 := by simp; omega
  rw [show s.take k ++ 0 :: (s.drop (k + 1) ++ 0 :: rest)
      = (s.take k ++ [0]) ++ (s.drop (k + 1) ++ 0 :: rest) by simp]
  exact List.drop_left' h3

theorem byteAt_of_str_at {buf : List Nat} {p : Nat} {s rest : List Nat} (h : str_at buf p s rest) :
    byteAt buf p = s.headD 0 := by
  cases s with
  | nil => exact byteAt_of_drop h.1
  | cons a t => exact byteAt_of_drop h.1

/-- A store behind the terminator of a string leaves the string as it is. -/
theorem str_at_set_behind {buf : List Nat} {p : Nat} {s rest : List Nat} (h : str_at buf p s rest)
    (i x : Nat) (hi : p + s.length < i) :
    str_at (buf.set i x) p s (rest.set (i - (p + s.length) - 1) x) := by
  refine ⟨?_, h.2⟩
  rw [List.drop_set, if_neg (by omega), h.1, List.set_append_right _ _ (by omega)]
  have : i - p - s.length = (i - (p + s.length) - 1) + 1 := by omega
  rw [this, List.set_cons_succ]

theorem strpbrk_none {buf : List Nat} {p : Nat} {s rest : List Nat} (h : str_at buf p s rest)
    (hs : split_token s = none) : strpbrk_sptab buf p = none := by
  unfold split_token at hs
  unfold strpbrk_sptab
  rw [cstr_of_str_at h]
  simp only at hs ⊢
  split_ifs at hs ⊢
  rfl

/-- One token step of `parse_request_line`: `strpbrk` finds the end of the
token, a NUL is stored there, and `strspn` skips the blanks behind it. -/
theorem token_step {buf : List Nat} {p : Nat} {s rest tok s2 : List Nat}
    (h : str_at buf p s rest) (hs : split_token s = some (tok, s2)) :
    strpbrk_sptab buf p = some (p + tok.length)
    ∧ (∃ r, str_at (buf.set (p + tok.length) 0) p tok r)
    ∧ str_at (buf.set (p + tok.length) 0)
        (p + tok.length + 1 + strspn_sptab (buf.set (p + tok.length) 0) (p + tok.length + 1))
        s2 rest := by
  unfold split_token at hs
  simp only at hs
  split_ifs at hs with hk
  simp only [Option.some.injEq, Prod.mk.injEq] at hs
  obtain ⟨htok, hs2⟩ := hs
  rw [htok] at hk
  have hcut := str_at_cut h tok.length hk
  have htake : s.take tok.length = tok := by
    rw [← htok]; exact take_length_takeWhile _ s
  rw [htake] at hcut
  refine ⟨?_, ⟨_, hcut.1⟩, ?_⟩
  · unfold strpbrk_sptab
    rw [cstr_of_str_at h]
    simp only [htok, hk, if_true]
  · unfold strspn_sptab
    rw [cstr_of_str_at hcut.2]
    have := str_at_drop hcut.2 ((s.drop (tok.length + 1)).takeWhile isSpTab).length
      (length_takeWhile_le _ _)
    rw [drop_length_takeWhile] at this
    rw [← hs2, ← htok]
    rw [← htok] at this
    exact this

theorem str_at_len {buf : List Nat} {p : Nat} {s rest : List Nat} (h : str_at buf p s rest) :
    p + s.length + 1 + rest.length = buf.length := by
  have := congrArg List.length h.1
  simp at this
  omega

theorem strchr_slash {buf : List Nat} {p : Nat} {s rest : List Nat} (h : str_at buf p s rest) :
    (s.dropWhile (fun b => b != 47) = [] → strchr buf p 47 = none)
    ∧ (s.dropWhile (fun b => b != 47) ≠ [] →
        strchr buf p 47 = some (p + (s.takeWhile (fun b => b != 47)).length)
        ∧ str_at buf (p + (s.takeWhile (fun b => b != 47)).length)
            (s.dropWhile (fun b => b != 47)) rest
        ∧ byteAt buf (p + (s.takeWhile (fun b => b != 47)).length) = 47) := by
  have hle := length_takeWhile_le (fun b => b != 47) s
  have hd := drop_length_takeWhile (fun b => b != 47) s
  constructor
  · intro hnil
    unfold strchr
    rw [cstr_of_str_at h]
    rw [hnil] at hd
    have : s.length ≤ (s.takeWhile (fun b => b != 47)).length := by
      simpa using hd
    simp only
    rw [if_neg (by omega)]
  · intro hne
    have hlt : (s.takeWhile (fun b => b != 47)).length < s.length := by
      rcases Nat.lt_or_ge (s.takeWhile (fun b => b != 47)).length s.length with h1 | h1
      · exact h1
      · rw [List.drop_of_length_le h1] at hd
        exact absurd hd.symm hne
    have hat := str_at_drop h _ hle
    rw [hd] at hat
    refine ⟨?_, hat, ?_⟩
    · unfold strchr
      rw [cstr_of_str_at h]
      simp only [hlt, if_true]
    · obtain ⟨x, t, hx, hpx⟩ := dropWhile_head_not _ s hlt
      rw [byteAt_of_str_at hat, hx]
      simpa using hpx

theorem take7_http : (bytes "http://").take 7 = bytes "http://" := by decide

/-- The function `parse_request_line` on a line `s` of the buffer, in terms of
`request_line_url`. In the accepting case the stored URL is a string of the
new buffer that ends in front of the version, and the bytes behind the line
are untouched. -/
theorem parse_request_line_spec (c : http_conn) (text : Nat) (s rest : List Nat)
    (h : str_at c.m_read_buf text s rest) :
    match request_line_url s with
    | some path =>
      ∃ buf w v r ver,
        parse_request_line c text =
          (NO_REQUEST,
            { c with
              m_read_buf := buf, m_url := some w, m_version := some v, m_method := GET
              m_check_state := CHECK_STATE_HEADER })
        ∧ str_at buf w path r ∧ str_at buf v ver rest ∧ w + path.length < v
        ∧ buf.length = c.m_read_buf.length
    | none =>
      (parse_request_line c text).1 = BAD_REQUEST
      ∧ (parse_request_line c text).2.m_check_state = c.m_check_state := by
  unfold request_line_url
  cases hs1 : split_token s with
  | none =>
    have e := strpbrk_none h hs1
    simp only [parse_request_line, e]
    first | exact ⟨rfl, rfl⟩ | trivial
  | some ms2 =>
    obtain ⟨m, s2⟩ := ms2
    obtain ⟨e1, ⟨r1, hm⟩, h2⟩ := token_step h hs1
    have hcmp : caseEq (cstr (c.m_read_buf.set (text + m.length) 0) text) (bytes "GET")
        = caseEq m (bytes "GET") := by
      rw [cstr_of_str_at hm]
    by_cases hget : caseEq m (bytes "GET") = true
    · simp only [hget, if_true]
      cases hs2 : split_token s2 with
      | none =>
        have e2 := strpbrk_none h2 hs2
        simp only [parse_request_line, strcasecmp_eq, e1, hcmp, hget, e2, if_true]
        first | exact ⟨rfl, rfl⟩ | trivial
      | some uv =>
        obtain ⟨url, ver⟩ := uv
        obtain ⟨e2, ⟨r2, hu⟩, h3⟩ := token_step h2 hs2
        have hcmpv := congrArg (fun t => caseEq t (bytes "HTTP/1.1")) (cstr_of_str_at h3)
        have hcmpu := congrArg (fun t => caseEq (t.take 7) (bytes "http://")) (cstr_of_str_at hu)
        simp only at hcmpv hcmpu
        simp only [parse_request_line, e1, hcmp, hget, e2, if_true, strcasecmp_eq, strncasecmp_eq,
          take7_http, hcmpv, hcmpu]
        by_cases hver : caseEq ver (bytes "HTTP/1.1") = true
        · simp only [hver, if_true]
          by_cases hhttp : caseEq (url.take 7) (bytes "http://") = true
          · simp only [hhttp, if_true]
            have hlen7 : 7 ≤ url.length := by
              have := congrArg List.length (by simpa [caseEq] using hhttp :
                (url.take 7).map tolower = (bytes "http://").map tolower)
              simp only [List.length_map, List.length_take] at this
              have h7 : (bytes "http://").length = 7 := by decide
              omega
            have hu7 := str_at_drop hu 7 hlen7
            have hch := strchr_slash hu7
            by_cases hnil : (url.drop 7).dropWhile (fun b => b != 47) = []
            · simp only [hnil, if_true, hch.1 hnil]
              first | exact ⟨rfl, rfl⟩ | trivial
            · obtain ⟨ec, hpath, hb⟩ := hch.2 hnil
              simp only [hnil, if_false, ec, hb, if_true]
              refine ⟨_, _, _, _, _, rfl, hpath, h3, ?_, by simp⟩
              have hl := congrArg List.length
                (List.takeWhile_append_dropWhile (fun b => b != 47) (url.drop 7))
              simp only [List.length_append, List.length_drop] at hl
              omega
          · simp only [hhttp, Bool.false_eq_true, if_false]
            have hb := byteAt_of_str_at hu
            by_cases hhead : url.head? = some 47
            · have : url.headD 0 = 47 := by
                cases url with
                | nil => simp at hhead
                | cons a t => simpa using hhead
              simp only [hhead, if_true, hb, this]
              exact ⟨_, _, _, _, _, rfl, hu, h3, by omega, by simp⟩
            · have : ¬ url.headD 0 = 47 := by
                cases url with
                | nil => simp
                | cons a t => simpa using hhead
              simp only [hhead, if_false, hb, this]
              first | exact ⟨rfl, rfl⟩ | trivial
        · simp only [hver, Bool.false_eq_true, if_false]
          first | exact ⟨rfl, rfl⟩ | trivial
    · simp only [hget, Bool.false_eq_true, if_false, parse_request_line, strcasecmp_eq, e1, hcmp]
      first | exact ⟨rfl, rfl⟩ | trivial

/-! ### Tokens -/

theorem split_token_of_parts (tok ws s2 : List Nat) (htok : ∀ b ∈ tok, isSpTab b = false)
    (hne : ws ≠ []) (hws : ∀ b ∈ ws, isSpTab b = true)
    (hs2 : ∀ x ∈ s2.head?, isSpTab x = false) :
    split_token (tok ++ ws ++ s2) = some (tok, s2) := by
  obtain ⟨w, ws1, rfl⟩ := List.exists_cons_of_ne_nil hne
  have e : tok ++ w :: ws1 ++ s2 = tok ++ w :: (ws1 ++ s2) := by simp
  have hw : isSpTab w = true := hws w (by simp)
  have h1 : (tok ++ w :: ws1 ++ s2).takeWhile (fun b => !isSpTab b) = tok := by
    rw [e]
    exact takeWhile_append_stop _ tok w _ (fun b hb => by simp [htok b hb]) (by simp [hw])
  have h2 : (ws1 ++ s2).dropWhile isSpTab = s2 := by
    cases s2 with
    | nil =>
      simp only [List.append_nil, List.dropWhile_eq_nil_iff]
      exact fun b hb => hws b (by simp [hb])
    | cons x t =>
      exact dropWhile_append_stop _ ws1 x t (fun b hb => hws b (by simp [hb]))
        (hs2 x (by simp))
  unfold split_token
  simp only [h1]
  rw [if_pos (by simp)]
  have h3 : (tok ++ w :: ws1 ++ s2).drop (tok.length + 1) = ws1 ++ s2 := by
    rw [e, show tok ++ w :: (ws1 ++ s2) = (tok ++ [w]) ++ (ws1 ++ s2) by simp]
    exact List.drop_left' (by simp)
  rw [h3, h2]

theorem split_token_parts {s tok s2 : List Nat} (h : split_token s = some (tok, s2)) :
    ∃ ws, s = tok ++ ws ++ s2 ∧ ws ≠ [] ∧ (∀ b ∈ ws, isSpTab b = true)
      ∧ (∀ b ∈ tok, isSpTab b = false) ∧ (∀ x ∈ s2.head?, isSpTab x = false) := by
  unfold split_token at h
  simp only at h
  split_ifs at h with hk
  simp only [Option.some.injEq, Prod.mk.injEq] at h
  obtain ⟨htok, hs2⟩ := h
  obtain ⟨x, t, hx, hpx⟩ := dropWhile_head_not _ s hk
  have hsx : isSpTab x = true := by simpa using hpx
  have hsplit := List.takeWhile_append_dropWhile (fun b => !isSpTab b) s
  rw [hx, htok] at hsplit
  have hdrop : s.drop (tok.length + 1) = t := by
    rw [← hsplit, show tok ++ x :: t = (tok ++ [x]) ++ t by simp]
    exact List.drop_left' (by simp)
  rw [htok, hdrop] at hs2
  refine ⟨x :: t.takeWhile isSpTab, ?_, by simp, ?_, ?_, ?_⟩
  · rw [← hs2]
    have := List.takeWhile_append_dropWhile isSpTab t
    calc s = tok ++ x :: t := hsplit.symm
      _ = tok ++ x :: (t.takeWhile isSpTab ++ t.dropWhile isSpTab) := by rw [this]
      _ = _ := by simp
  · intro b hb
    rcases List.mem_cons.1 hb with rfl | hb
    · exact hsx
    · exact mem_takeWhile_imp _ _ b hb
  · intro b hb
    rw [← htok] at hb
    simpa using mem_takeWhile_imp _ _ b hb
  · intro y hy
    rw [← hs2] at hy
    have := List.head?_dropWhile_not isSpTab t
    rw [Option.mem_def] at hy
    rw [hy] at this
    simpa using this

/-! ### Comparison up to case -/

theorem isSpTab_iff (b : Nat) : isSpTab b = true ↔ b = 32 ∨ b = 9 := by
  simp [isSpTab]

theorem isSpTab_tolower (b : Nat) : isSpTab (tolower b) = isSpTab b := by
  rw [Bool.eq_iff_iff, isSpTab_iff, isSpTab_iff]
  unfold tolower
  split_ifs <;> omega

theorem caseEq_no_sptab {s lit : List Nat} (h : caseEq s lit = true)
    (hl : ∀ x ∈ lit.map tolower, isSpTab x = false) : ∀ b ∈ s, isSpTab b = false := by
  intro b hb
  have e : s.map tolower = lit.map tolower := by simpa [caseEq] using h
  have : tolower b ∈ lit.map tolower := by
    rw [← e]; exact List.mem_map_of_mem _ hb
  rw [← isSpTab_tolower]
  exact hl _ this

theorem caseEq_length {s lit : List Nat} (h : caseEq s lit = true) : s.length = lit.length := by
  have e : s.map tolower = lit.map tolower := by simpa [caseEq] using h
  simpa using congrArg List.length e

theorem caseEq_head {s lit : List Nat} (h : caseEq s lit = true) :
    s.head?.map tolower = lit.head?.map tolower := by
  have e : s.map tolower = lit.map tolower := by simpa [caseEq] using h
  simpa using congrArg List.head? e

theorem http_prefix_head {url : List Nat} (h : caseEq (url.take 7) (bytes "http://") = true) :
    url.head? ≠ some 47 := by
  have := caseEq_head h
  cases url with
  | nil => simp
  | cons a t =>
    simp only [List.take_succ_cons, List.head?_cons, Option.map_some'] at this
    have h2 : (bytes "http://").head?.map tolower = some 104 := by decide
    rw [h2] at this
    simp only [Option.some.injEq] at this
    simp only [List.head?_cons, ne_eq, Option.some.injEq]
    rintro rfl
    revert this
    decide

theorem get_no_sptab {m : List Nat} (h : caseEq m (bytes "GET") = true) :
    ∀ b ∈ m, isSpTab b = false :=
  caseEq_no_sptab h (by decide)

theorem version_head {ver : List Nat} (h : caseEq ver (bytes "HTTP/1.1") = true) :
    ∀ x ∈ ver.head?, isSpTab x = false := by
  intro x hx
  exact caseEq_no_sptab h (by decide) x (List.mem_of_mem_head? hx)

theorem request_line_url_of_shape {line m ws1 url ws2 ver : List Nat}
    (h : is_request_line line m ws1 url ws2 ver) :
    request_line_url line = some (stored_url url) := by
  obtain ⟨rfl, hm, hne1, hws1, hneu, hurl, hne2, hws2, hver, hform⟩ := h
  have hhead : ∀ x ∈ (url ++ ws2 ++ ver).head?, isSpTab x = false := by
    obtain ⟨a, t, rfl⟩ := List.exists_cons_of_ne_nil hneu
    intro x hx
    simp only [List.cons_append, List.head?_cons, Option.mem_def, Option.some.injEq] at hx
    subst hx
    exact hurl _ (by simp)
  have s1 : split_token (m ++ ws1 ++ url ++ ws2 ++ ver) = some (m, url ++ ws2 ++ ver) := by
    have := split_token_of_parts m ws1 (url ++ ws2 ++ ver) (get_no_sptab hm) hne1 hws1 hhead
    simpa using this
  have s2 : split_token (url ++ ws2 ++ ver) = some (url, ver) :=
    split_token_of_parts url ws2 ver hurl hne2 hws2 (version_head hver)
  unfold request_line_url
  simp only [s1, hm, if_true, s2, hver]
  by_cases hp : caseEq (url.take 7) (bytes "http://") = true
  · have hh := http_prefix_head hp
    rcases hform with h1 | ⟨_, h2⟩
    · exact absurd h1 hh
    · have hne : (url.drop 7).dropWhile (fun b => b != 47) ≠ [] := by
        intro hnil
        rw [List.dropWhile_eq_nil_iff] at hnil
        simpa using hnil 47 h2
      simp only [hp, if_true, hne, if_false, stored_url, hh]
  · rcases hform with h1 | ⟨h2, _⟩
    · simp only [hp, Bool.false_eq_true, if_false, h1, if_true, stored_url]
    · exact absurd h2 hp

theorem shape_of_request_line_url {line path : List Nat}
    (h : request_line_url line = some path) :
    ∃ m ws1 url ws2 ver, is_request_line line m ws1 url ws2 ver ∧ path = stored_url url := by
  unfold request_line_url at h
  cases hs1 : split_token line with
  | none => simp [hs1] at h
  | some ms2 =>
    obtain ⟨m, s2⟩ := ms2
    simp only [hs1] at h
    split_ifs at h with hm
    cases hs2 : split_token s2 with
    | none => simp [hs2] at h
    | some uv =>
      obtain ⟨url, ver⟩ := uv
      simp only [hs2] at h
      obtain ⟨ws1, e1, hne1, hws1, _, hhead2⟩ := split_token_parts hs1
      obtain ⟨ws2, e2, hne2, hws2, hurl, _⟩ := split_token_parts hs2
      have hneu : url ≠ [] := by
        rintro rfl
        obtain ⟨w, t, rfl⟩ := List.exists_cons_of_ne_nil hne2
        have := hhead2 w (by rw [e2]; simp)
        rw [hws2 w (by simp)] at this
        exact absurd this (by simp)
      have hline : line = m ++ ws1 ++ url ++ ws2 ++ ver := by rw [e1, e2]; simp
      split_ifs at h with hver hp hnil hhd
      · -- the "http://" form
        simp only [Option.some.injEq] at h
        have hh := http_prefix_head hp
        refine ⟨m, ws1, url, ws2, ver,
          ⟨hline, hm, hne1, hws1, hneu, hurl, hne2, hws2, hver, Or.inr ⟨hp, ?_⟩⟩, ?_⟩
        · obtain ⟨x, t, hx⟩ := List.exists_cons_of_ne_nil hnil
          have hnot := List.head?_dropWhile_not (fun b => b != 47) (url.drop 7)
          rw [hx] at hnot
          simp only [List.head?_cons, bne_eq_false_iff_eq] at hnot
          have hmem : x ∈ (url.drop 7).dropWhile (fun b => b != 47) := by rw [hx]; simp
          rw [← hnot]
          exact (List.dropWhile_sublist _).subset hmem
        · simp only [stored_url, hh, if_false]; exact h.symm
      · -- the plain form
        simp only [Option.some.injEq] at h
        exact ⟨m, ws1, url, ws2, ver,
          ⟨hline, hm, hne1, hws1, hneu, hurl, hne2, hws2, hver, Or.inl hhd⟩,
          by simp only [stored_url, hhd, if_true]; exact h.symm⟩

theorem stored_url_head {line m ws1 url ws2 ver : List Nat}
    (h : is_request_line line m ws1 url ws2 ver) : (stored_url url).head? = some 47 := by
  obtain ⟨-, -, -, -, -, -, -, -, -, hform⟩ := h
  unfold stored_url
  split_ifs with hh
  · exact hh
  · rcases hform with h1 | ⟨_, h2⟩
    · exact absurd h1 hh
    · have hne : (url.drop 7).dropWhile (fun b => b != 47) ≠ [] := by
        intro hnil
        rw [List.dropWhile_eq_nil_iff] at hnil
        simpa using hnil 47 h2
      obtain ⟨x, t, hx⟩ := List.exists_cons_of_ne_nil hne
      have hnot := List.head?_dropWhile_not (fun b => b != 47) (url.drop 7)
      rw [hx] at hnot ⊢
      simp only [List.head?_cons, bne_eq_false_iff_eq] at hnot
      simp [hnot]

/-- C3: `parse_request_line` accepts exactly the well-formed lines. For a
NUL-terminated line at offset `text` of the read buffer, with the main state
at `CHECK_STATE_REQUESTLINE`: the function returns `NO_REQUEST` and sets the
state to `CHECK_STATE_HEADER` if and only if the line has the shape
`is_request_line`; then the stored URL is the string `stored_url` of the URL
token and begins with a slash; for every other line the function returns
`BAD_REQUEST` and the state stays `CHECK_STATE_REQUESTLINE`. -/
theorem parse_request_line_accepts (c : http_conn) (text : Nat) (line rest : List Nat)
    (hline : str_at c.m_read_buf text line rest)
    (hstate : c.m_check_state = CHECK_STATE_REQUESTLINE) :
    (((parse_request_line c text).1 = NO_REQUEST
        ∧ (parse_request_line c text).2.m_check_state = CHECK_STATE_HEADER)
      ↔ ∃ m ws1 url ws2 ver, is_request_line line m ws1 url ws2 ver)
    ∧ (∀ m ws1 url ws2 ver, is_request_line line m ws1 url ws2 ver →
        ∃ w, (parse_request_line c text).2.m_url = some w
          ∧ cstr (parse_request_line c text).2.m_read_buf w = stored_url url
          ∧ (stored_url url).head? = some 47)
    ∧ ((¬ ∃ m ws1 url ws2 ver, is_request_line line m ws1 url ws2 ver) →
        (parse_request_line c text).1 = BAD_REQUEST
        ∧ (parse_request_line c text).2.m_check_state = CHECK_STATE_REQUESTLINE) := by
  have hspec := parse_request_line_spec c text line rest hline
  cases hu : request_line_url line with
  | none =>
    rw [hu] at hspec
    have hno : ¬ ∃ m ws1 url ws2 ver, is_request_line line m ws1 url ws2 ver := by
      rintro ⟨m, ws1, url, ws2, ver, h⟩
      rw [request_line_url_of_shape h] at hu
      exact Option.noConfusion hu
    refine ⟨⟨fun h => ?_, fun h => absurd h hno⟩, fun m ws1 url ws2 ver h => ?_, fun _ => ?_⟩
    · rw [hspec.1] at h
      exact absurd h.1 (by decide)
    · exact absurd ⟨m, ws1, url, ws2, ver, h⟩ hno
    · exact ⟨hspec.1, by rw [hspec.2, hstate]⟩
  | some path =>
    rw [hu] at hspec
    obtain ⟨buf, w, v, r, ver0, e, hw, -, -⟩ := hspec
    obtain ⟨m, ws1, url, ws2, ver, hshape, hpath⟩ := shape_of_request_line_url hu
    refine ⟨⟨fun _ => ⟨m, ws1, url, ws2, ver, hshape⟩, fun _ => by rw [e]; exact ⟨rfl, rfl⟩⟩,
      fun m1 ws3 url1 ws4 ver1 h1 => ?_, fun hno => absurd ⟨m, ws1, url, ws2, ver, hshape⟩ hno⟩
    have h2 := request_line_url_of_shape h1
    rw [hu] at h2
    simp only [Option.some.injEq] at h2
    refine ⟨w, by rw [e], ?_, stored_url_head h1⟩
    rw [e, ← h2]
    exact cstr_of_str_at hw

set_option maxRecDepth 100000 in
/-- The contract of `parse_request_line` at the line
"GET http://host/a HTTP/1.1": the line is accepted and the stored URL is "/a". -/
theorem parse_request_line_accepts_witness :
    str_at request_line_example.m_read_buf 0 (bytes "GET http://host/a HTTP/1.1") [0]
    ∧ is_request_line (bytes "GET http://host/a HTTP/1.1") (bytes "GET") (bytes " ")
        (bytes "http://host/a") (bytes " ") (bytes "HTTP/1.1")
    ∧ stored_url (bytes "http://host/a") = bytes "/a"
    ∧ ∃ w, (parse_request_line request_line_example 0).2.m_url = some w
        ∧ cstr (parse_request_line request_line_example 0).2.m_read_buf w
          = stored_url (bytes "http://host/a")
        ∧ (stored_url (bytes "http://host/a")).head? = some 47 := by
  have h1 : str_at request_line_example.m_read_buf 0 (bytes "GET http://host/a HTTP/1.1") [0] := by
    unfold str_at; decide
  have h2 : is_request_line (bytes "GET http://host/a HTTP/1.1") (bytes "GET") (bytes " ")
      (bytes "http://host/a") (bytes " ") (bytes "HTTP/1.1") := by
    unfold is_request_line; decide
  exact ⟨h1, h2, by decide,
    (parse_request_line_accepts request_line_example 0 _ [0] h1 rfl).2.1 _ _ _ _ _ h2⟩

/-! ### The tokenizer on a line that ends in CR LF -/

theorem parse_line_loop_crlf (line : List Nat) :
    ∀ (c : http_conn) (fuel : Nat) (rest : List Nat),
      fuel = c.m_read_idx - c.m_checked_idx →
      c.m_read_buf.drop c.m_checked_idx = line ++ CR :: LF :: rest →
      (∀ b ∈ line, b ≠ CR ∧ b ≠ LF) →
      c.m_checked_idx + line.length + 2 ≤ c.m_read_idx →
      parse_line_loop fuel c =
        (LINE_OK,
          { c with
            m_read_buf :=
              (c.m_read_buf.set (c.m_checked_idx + line.length) 0).set
                (c.m_checked_idx + line.length + 1) 0
            m_checked_idx := c.m_checked_idx + line.length + 2 }) := by
  induction line with
  | nil =>
    intro c fuel rest hfuel hbuf _ hread
    simp only [List.length_nil, Nat.add_zero] at hread ⊢
    obtain ⟨n, rfl⟩ : ∃ n, fuel = n + 1 := ⟨fuel - 1, by omega⟩
    have h0 : byteAt c.m_read_buf c.m_checked_idx = CR := byteAt_of_drop hbuf
    have h1 : byteAt c.m_read_buf (c.m_checked_idx + 1) = LF := by
      apply byteAt_of_drop (t := rest)
      rw [← List.drop_drop, hbuf]; rfl
    simp only [parse_line_loop, h0, h1, if_true]
    rw [if_pos (by omega), if_neg (by omega)]
  | cons a t ih =>
    intro c fuel rest hfuel hbuf hline hread
    simp only [List.length_cons] at hread
    obtain ⟨n, rfl⟩ : ∃ n, fuel = n + 1 := ⟨fuel - 1, by omega⟩
    have h0 : byteAt c.m_read_buf c.m_checked_idx = a := byteAt_of_drop hbuf
    have ha := hline a (by simp)
    have hstep := ih { c with m_checked_idx := c.m_checked_idx + 1 } n rest
      (by simp only; omega)
      (by simp only; rw [← List.drop_drop, hbuf]; rfl)
      (fun b hb => hline b (by simp [hb]))
      (by simp only; omega)
    simp only [parse_line_loop, h0, ha.1, ha.2, if_false]
    rw [if_pos (by omega), hstep]
    simp only [List.length_cons]
    have e1 : c.m_checked_idx + 1 + t.length = c.m_checked_idx + (t.length + 1) := by omega
    rw [e1]

theorem parse_line_crlf (c : http_conn) (line rest : List Nat)
    (hbuf : c.m_read_buf.drop c.m_checked_idx = line ++ CR :: LF :: rest)
    (hline : ∀ b ∈ line, b ≠ CR ∧ b ≠ LF)
    (hread : c.m_checked_idx + line.length + 2 ≤ c.m_read_idx) :
    parse_line c =
      (LINE_OK,
        { c with
          m_read_buf :=
            (c.m_read_buf.set (c.m_checked_idx + line.length) 0).set
              (c.m_checked_idx + line.length + 1) 0
          m_checked_idx := c.m_checked_idx + line.length + 2 }) :=
  parse_line_loop_crlf line c _ rest rfl hbuf hline hread

/-- The buffer behind the tokenizer: CR and LF have become NUL. -/
theorem drop_set_crlf (buf : List Nat) (p : Nat) (line rest : List Nat)
    (hbuf : buf.drop p = line ++ CR :: LF :: rest) :
    ((buf.set (p + line.length) 0).set (p + line.length + 1) 0).drop p
      = line ++ 0 :: 0 :: rest := by
  rw [List.drop_set, if_neg (by omega), List.drop_set, if_neg (by omega), hbuf]
  have e1 : p + line.length - p = line.length := by omega
  have e2 : p + line.length + 1 - p = line.length + 1 := by omega
  rw [e1, e2, List.set_append_right _ _ (Nat.le_refl _), Nat.sub_self, List.set_cons_zero,
    List.set_append_right _ _ (by omega)]
  have e3 : line.length + 1 - line.length = 1 := by omega
  rw [e3]
  rfl

/-- In front of a NUL every list is a NUL-terminated string followed by
something. -/
theorem str_at_of_nul (buf : List Nat) (p : Nat) (line rest : List Nat)
    (h : buf.drop p = line ++ 0 :: rest) :
    ∃ r, str_at buf p (line.takeWhile (fun b => b != 0)) r := by
  have hsplit := List.takeWhile_append_dropWhile (fun b => b != 0) line
  have hmem : ∀ b ∈ line.takeWhile (fun b => b != 0), b ≠ 0 := fun b hb => by
    simpa using mem_takeWhile_imp _ _ b hb
  cases hd : line.dropWhile (fun b => b != 0) with
  | nil =>
    rw [hd, List.append_nil] at hsplit
    exact ⟨rest, by rw [hsplit]; exact h, hmem⟩
  | cons x t =>
    have hx := List.head?_dropWhile_not (fun b => b != 0) line
    rw [hd] at hx
    simp only [List.head?_cons, bne_eq_false_iff_eq] at hx
    subst hx
    refine ⟨t ++ 0 :: rest, ?_, hmem⟩
    rw [h]
    conv_lhs => rw [← hsplit, hd]
    simp

/-! ### Frames of the parsers -/

theorem parse_request_line_frame (c : http_conn) (text : Nat) :
    ∃ buf url ver meth st,
      (parse_request_line c text).2 =
        { c with
          m_read_buf := buf, m_url := url, m_version := ver, m_method := meth
          m_check_state := st } := by
  unfold parse_request_line
  repeat' (first | exact ⟨_, _, _, _, _, rfl⟩ | split | split_ifs | dsimp only)

theorem read_init (W : Nat) (c : http_conn) (req : List Nat) (hne : req ≠ [])
    (hlen : req.length ≤ READ_BUFFER_SIZE) :
    read (init W c) [recv_result.data req, recv_result.eagain] = some (true, received W c req) := by
  have hR : READ_BUFFER_SIZE = 1024 := rfl
  have hi : (init W c).m_read_idx = 0 := rfl
  have hb : (init W c).m_read_buf = List.replicate READ_BUFFER_SIZE 0 := rfl
  have h0 : ¬ (init W c).m_read_idx ≥ READ_BUFFER_SIZE := by rw [hi]; omega
  have h1 : req.take (READ_BUFFER_SIZE - (init W c).m_read_idx) = req :=
    List.take_of_length_le (by rw [hi]; omega)
  have h2 : ¬ req.length = 0 := by
    intro h; exact hne (List.length_eq_zero.1 h)
  have h3 : write_at (init W c).m_read_buf (init W c).m_read_idx req
      = req ++ List.replicate (READ_BUFFER_SIZE - req.length) 0 := by
    rw [hi, hb]
    simp only [write_at, List.take_zero, List.nil_append, Nat.zero_add,
      List.length_replicate, List.drop_replicate]
    exact List.take_of_length_le (by simp only [List.length_append, List.length_replicate]; omega)
  simp only [read, h0, if_false, read_loop, h1, h2, h3]
  simp only [received, hi, Nat.zero_add]

/-- One iteration of the loop of `process_read` in the first state, when the
tokenizer delivers a line. -/
theorem process_read_loop_request_line (fs : file_system) (fuel : Nat) (ls : LINE_STATUS)
    (c c1 : http_conn) (hs : c.m_check_state = CHECK_STATE_REQUESTLINE)
    (hp : parse_line c = (LINE_OK, c1)) (hs1 : c1.m_check_state = CHECK_STATE_REQUESTLINE) :
    process_read_loop fs (fuel + 1) ls c =
      if (parse_request_line { c1 with m_start_line := c1.m_checked_idx } c1.m_start_line).1
          = BAD_REQUEST then
        some (BAD_REQUEST,
          (parse_request_line { c1 with m_start_line := c1.m_checked_idx } c1.m_start_line).2)
      else
        process_read_loop fs fuel LINE_OK
          (parse_request_line { c1 with m_start_line := c1.m_checked_idx } c1.m_start_line).2 := by
  simp [process_read_loop, hs, hp, hs1]

theorem request_line_url_none_of_method (line : List Nat)
    (h : caseEq (line.takeWhile (fun b => !isSpTab b)) (bytes "GET") = false) :
    request_line_url (line.takeWhile (fun b => b != 0)) = none := by
  unfold request_line_url
  cases hs : split_token (line.takeWhile (fun b => b != 0)) with
  | none => rfl
  | some ms2 =>
    obtain ⟨m, s2⟩ := ms2
    obtain ⟨ws, e, hne, hws, hm, -⟩ := split_token_parts hs
    obtain ⟨w, ws1, rfl⟩ := List.exists_cons_of_ne_nil hne
    have hline := List.takeWhile_append_dropWhile (fun b => b != 0) line
    rw [e] at hline
    have hm2 : line.takeWhile (fun b => !isSpTab b) = m := by
      rw [← hline, show m ++ w :: ws1 ++ s2 ++ line.dropWhile (fun b => b != 0)
        = m ++ w :: (ws1 ++ s2 ++ line.dropWhile (fun b => b != 0)) by simp]
      exact takeWhile_append_stop _ m w _ (fun b hb => by simp [hm b hb])
        (by simp [hws w (by simp)])
    rw [hm2] at h
    simp [h]

/-- The first line of a request with a method other than "GET": the loop of
`process_read` returns `BAD_REQUEST` in its first iteration, and neither the
write buffer nor the keep-alive flag has changed. -/
theorem process_read_bad_method (fs : file_system) (W : Nat) (c : http_conn)
    (line rest : List Nat) (fuel : Nat) (ls : LINE_STATUS)
    (hst : c.m_check_state = CHECK_STATE_REQUESTLINE)
    (hsl : c.m_start_line = c.m_checked_idx)
    (hbuf : c.m_read_buf.drop c.m_checked_idx = line ++ CR :: LF :: rest)
    (hline : ∀ b ∈ line, b ≠ CR ∧ b ≠ LF)
    (hread : c.m_checked_idx + line.length + 2 ≤ c.m_read_idx)
    (hmethod : caseEq (line.takeWhile (fun b => !isSpTab b)) (bytes "GET") = false)
    (hw : holds W c []) (hl : c.m_linger = false) :
    ∃ c2, process_read_loop fs (fuel + 1) ls c = some (BAD_REQUEST, c2)
      ∧ holds W c2 [] ∧ c2.m_linger = false := by
  have hpl := parse_line_crlf c line rest hbuf hline hread
  have hdrop := drop_set_crlf _ _ line _ hbuf
  obtain ⟨r, hstr⟩ := str_at_of_nul _ _ line _ hdrop
  have hloop := process_read_loop_request_line fs fuel ls c _ hst hpl hst
  simp only [hsl] at hloop
  have hspec := parse_request_line_spec _ c.m_checked_idx _ r
    (show str_at
      ({ c with
          m_read_buf := (c.m_read_buf.set (c.m_checked_idx + line.length) 0).set
            (c.m_checked_idx + line.length + 1) 0
          m_checked_idx := c.m_checked_idx + line.length + 2
          m_start_line := c.m_checked_idx + line.length + 2 } : http_conn).m_read_buf
      c.m_checked_idx _ r from hstr)
  rw [request_line_url_none_of_method line hmethod] at hspec
  obtain ⟨buf, url, ver, meth, st, hframe⟩ := parse_request_line_frame
    ({ c with
        m_read_buf := (c.m_read_buf.set (c.m_checked_idx + line.length) 0).set
          (c.m_checked_idx + line.length + 1) 0
        m_checked_idx := c.m_checked_idx + line.length + 2
        m_start_line := c.m_checked_idx + line.length + 2 } : http_conn) c.m_checked_idx
  rw [hloop, if_pos hspec.1]
  exact ⟨_, rfl, by rw [hframe]; exact hw, by rw [hframe]; exact hl⟩

/-! ### One header line -/

theorem strspn_step {buf : List Nat} {p : Nat} {s rest : List Nat} (h : str_at buf p s rest) :
    str_at buf (p + strspn_sptab buf p) (s.dropWhile isSpTab) rest := by
  unfold strspn_sptab
  rw [cstr_of_str_at h]
  have := str_at_drop h (s.takeWhile isSpTab).length (length_takeWhile_le _ _)
  rwa [drop_length_takeWhile] at this

theorem prefix_eq (buf : List Nat) (p : Nat) (lit : List Nat) (n : Nat) (s rest : List Nat)
    (h : str_at buf p s rest) (hn : lit.length = n) :
    strncasecmp_eq buf p lit n = caseEq (s.take n) lit := by
  unfold strncasecmp_eq
  have e : lit.take n = lit := List.take_of_length_le (by omega)
  rw [cstr_of_str_at h, e]

theorem keep_alive_line :
    caseEq ((bytes "Connection: keep-alive").take 11) (bytes "Connection:") = true
    ∧ caseEq (((bytes "Connection: keep-alive").drop 11).dropWhile isSpTab) (bytes "keep-alive")
      = true := by
  decide

/-- The function `parse_headers` on a non-empty header line that announces no
body: the result is `NO_REQUEST`, only the host pointer and the keep-alive
flag can change, the flag is never cleared, and the line
"Connection: keep-alive" sets it. -/
theorem parse_headers_line (c : http_conn) (text : Nat) (h rest : List Nat)
    (hstr : str_at c.m_read_buf text h rest) (hne : h ≠ [])
    (hcl : announced_length h = 0) (hc0 : c.m_content_length = 0) :
    ∃ host linger,
      parse_headers c text = (NO_REQUEST, { c with m_host := host, m_linger := linger })
      ∧ (c.m_linger = true → linger = true)
      ∧ (h = bytes "Connection: keep-alive" → linger = true) := by
  have hb : ¬ byteAt c.m_read_buf text = 0 := by
    rw [byteAt_of_str_at hstr]
    obtain ⟨a, t, rfl⟩ := List.exists_cons_of_ne_nil hne
    exact hstr.2 a (by simp)
  have p1 := prefix_eq c.m_read_buf text (bytes "Connection:") 11 h rest hstr (by decide)
  have p2 := prefix_eq c.m_read_buf text (bytes "Content-Length:") 15 h rest hstr (by decide)
  have p3 := prefix_eq c.m_read_buf text (bytes "Host:") 5 h rest hstr (by decide)
  simp only [parse_headers, hb, if_false, p1, p2, p3]
  by_cases h1 : caseEq (h.take 11) (bytes "Connection:") = true
  · have hlen : 11 ≤ h.length := by
      have := caseEq_length h1
      simp only [List.length_take] at this
      have h11 : (bytes "Connection:").length = 11 := by decide
      omega
    have hv := strspn_step (str_at_drop hstr 11 hlen)
    simp only [h1, if_true, strcasecmp_eq, cstr_of_str_at hv]
    by_cases h2 : caseEq ((h.drop 11).dropWhile isSpTab) (bytes "keep-alive") = true
    · simp only [h2, if_true]
      exact ⟨c.m_host, true, rfl, fun _ => rfl, fun _ => rfl⟩
    · simp only [h2, Bool.false_eq_true, if_false]
      refine ⟨c.m_host, c.m_linger, rfl, fun hl => hl, fun hk => ?_⟩
      subst hk
      exact absurd keep_alive_line.2 h2
  · have hnk : h ≠ bytes "Connection: keep-alive" := by
      rintro rfl
      exact h1 keep_alive_line.1
    simp only [h1, Bool.false_eq_true, if_false]
    by_cases h3 : caseEq (h.take 15) (bytes "Content-Length:") = true
    · have hlen : 15 ≤ h.length := by
        have := caseEq_length h3
        simp only [List.length_take] at this
        have h15 : (bytes "Content-Length:").length = 15 := by decide
        omega
      have hv := strspn_step (str_at_drop hstr 15 hlen)
      simp only [announced_length, h3, if_true] at hcl
      simp only [h3, if_true, cstr_of_str_at hv, hcl]
      refine ⟨c.m_host, c.m_linger, ?_, fun hl => hl, fun hk => absurd hk hnk⟩
      rw [← hc0]
    · simp only [h3, Bool.false_eq_true, if_false]
      by_cases h4 : caseEq (h.take 5) (bytes "Host:") = true
      · simp only [h4, if_true]
        exact ⟨_, c.m_linger, rfl, fun hl => hl, fun hk => absurd hk hnk⟩
      · simp only [h4, Bool.false_eq_true, if_false]
        exact ⟨c.m_host, c.m_linger, rfl, fun hl => hl, fun hk => absurd hk hnk⟩

/-! ### The resolved path -/

theorem path_buffer (R U : List Nat) (N : Nat) (hN : R.length + 1 ≤ N) :
    write_at (write_at (List.replicate N 0) 0 (R ++ [0])) R.length
        (strncpy_bytes U (N - R.length - 1))
      = R ++ U.take (N - R.length - 1) ++ 0 :: List.replicate (N - R.length - 1 - U.length) 0 := by
  have e1 : write_at (List.replicate N 0) 0 (R ++ [0])
      = R ++ 0 :: List.replicate (N - R.length - 1) 0 := by
    simp only [write_at, List.take_zero, List.nil_append, Nat.zero_add, List.length_append,
      List.length_singleton, List.length_replicate, List.drop_replicate]
    rw [List.take_of_length_le (by simp; omega)]
    simp [Nat.sub_sub]
  have hX : (strncpy_bytes U (N - R.length - 1)).length = N - R.length - 1 := by
    simp only [strncpy_bytes, List.length_append, List.length_take, List.length_replicate]
    omega
  rw [e1]
  have hlen : (R ++ 0 :: List.replicate (N - R.length - 1) 0).length = N := by
    simp; omega
  have e2 : (R ++ 0 :: List.replicate (N - R.length - 1) 0).take R.length = R :=
    List.take_left' rfl
  have e3 : (R ++ 0 :: List.replicate (N - R.length - 1) 0).drop (R.length + (N - R.length - 1))
      = [0] := by
    rw [← List.drop_drop, List.drop_left' rfl]
    cases hk : N - R.length - 1 with
    | zero => simp
    | succ k =>
      simp only [List.drop_succ_cons, List.drop_replicate]
      have : k + 1 - k = 1 := by omega
      rw [this]; rfl
  unfold write_at
  rw [hlen, e2, hX, e3, List.take_of_length_le (by simp [hX]; omega)]
  simp only [strncpy_bytes, List.append_assoc]
  congr 2
  generalize N - R.length - 1 - U.length = k
  induction k with
  | zero => rfl
  | succ k ih => rw [List.replicate_succ, List.cons_append, ih]

theorem real_file_path (U : List Nat) (hU : ∀ b ∈ U, b ≠ 0) :
    cstr (write_at (write_at (List.replicate FILENAME_LEN 0) 0 (doc_root ++ [0])) doc_root.length
        (strncpy_bytes U (FILENAME_LEN - doc_root.length - 1))) 0
      = resolved_path U := by
  rw [path_buffer doc_root U FILENAME_LEN (by decide)]
  unfold cstr resolved_path
  rw [List.drop_zero]
  apply takeWhile_append_stop
  · intro b hb
    rcases List.mem_append.1 hb with h1 | h1
    · have : ∀ x ∈ doc_root, (x != 0) = true := by decide
      exact this b h1
    · simpa using hU b (List.mem_of_mem_take h1)
  · simp

/-! ### The loop over the header lines -/

theorem do_request_file (fs : file_system) (c : http_conn) (U : List Nat) (w : Nat)
    (r : List Nat) (st : file_stat) (hurl : c.m_url = some w)
    (hstr : str_at c.m_read_buf w U r) (hrf : c.m_real_file = List.replicate FILENAME_LEN 0)
    (hstat : fs.stat (resolved_path U) = some st) (hr : S_IROTH st.st_mode = true)
    (hd : S_ISDIR st.st_mode = false) :
    ∃ rf, do_request fs c =
      (FILE_REQUEST,
        { c with
          m_real_file := rf, m_file_stat := st
          m_file_address := fs.mmap (resolved_path U) st.st_size }) := by
  simp only [do_request, hurl, cstr_of_str_at hstr, hrf, real_file_path U hstr.2, hstat, hr, hd,
    Bool.not_true, Bool.false_eq_true, if_false]
  exact ⟨_, rfl⟩

theorem drop_past_line (buf : List Nat) (p : Nat) (h R : List Nat)
    (hd : buf.drop p = h ++ 0 :: 0 :: R) : buf.drop (p + h.length + 2) = R := by
  rw [show p + h.length + 2 = p + (h.length + 2) by omega, ← List.drop_drop, hd,
    show h ++ 0 :: 0 :: R = (h ++ [0, 0]) ++ R by simp]
  exact List.drop_left' (by simp)

theorem process_read_loop_next_line (fs : file_system) (fuel : Nat) (ls : LINE_STATUS)
    (c c1 c2 : http_conn) (hs : c.m_check_state = CHECK_STATE_REQUESTLINE)
    (hp : parse_line c = (LINE_OK, c1)) (hs1 : c1.m_check_state = CHECK_STATE_REQUESTLINE)
    (hr : parse_request_line { c1 with m_start_line := c1.m_checked_idx } c1.m_start_line
      = (NO_REQUEST, c2)) :
    process_read_loop fs (fuel + 1) ls c = process_read_loop fs fuel LINE_OK c2 := by
  rw [process_read_loop_request_line fs fuel ls c c1 hs hp hs1, hr]
  simp

/-- One iteration of the loop of `process_read` in the second state, when the
tokenizer delivers a line. -/
theorem process_read_loop_header (fs : file_system) (fuel : Nat) (ls : LINE_STATUS)
    (c c1 : http_conn) (hs : c.m_check_state = CHECK_STATE_HEADER)
    (hp : parse_line c = (LINE_OK, c1)) (hs1 : c1.m_check_state = CHECK_STATE_HEADER) :
    process_read_loop fs (fuel + 1) ls c =
      if (parse_headers { c1 with m_start_line := c1.m_checked_idx } c1.m_start_line).1
          = BAD_REQUEST then
        some (BAD_REQUEST,
          (parse_headers { c1 with m_start_line := c1.m_checked_idx } c1.m_start_line).2)
      else if (parse_headers { c1 with m_start_line := c1.m_checked_idx } c1.m_start_line).1
          = GET_REQUEST then
        some (do_request fs
          (parse_headers { c1 with m_start_line := c1.m_checked_idx } c1.m_start_line).2)
      else
        process_read_loop fs fuel LINE_OK
          (parse_headers { c1 with m_start_line := c1.m_checked_idx } c1.m_start_line).2 := by
  simp [process_read_loop, hs, hp, hs1]

theorem process_read_loop_next_header (fs : file_system) (fuel : Nat) (ls : LINE_STATUS)
    (c c1 c2 : http_conn) (hs : c.m_check_state = CHECK_STATE_HEADER)
    (hp : parse_line c = (LINE_OK, c1)) (hs1 : c1.m_check_state = CHECK_STATE_HEADER)
    (hr : parse_headers { c1 with m_start_line := c1.m_checked_idx } c1.m_start_line
      = (NO_REQUEST, c2)) :
    process_read_loop fs (fuel + 1) ls c = process_read_loop fs fuel LINE_OK c2 := by
  rw [process_read_loop_header fs fuel ls c c1 hs hp hs1, hr]
  simp

theorem process_read_loop_last_header (fs : file_system) (fuel : Nat) (ls : LINE_STATUS)
    (c c1 c2 : http_conn) (hs : c.m_check_state = CHECK_STATE_HEADER)
    (hp : parse_line c = (LINE_OK, c1)) (hs1 : c1.m_check_state = CHECK_STATE_HEADER)
    (hr : parse_headers { c1 with m_start_line := c1.m_checked_idx } c1.m_start_line
      = (GET_REQUEST, c2)) :
    process_read_loop fs (fuel + 1) ls c = some (do_request fs c2) := by
  rw [process_read_loop_header fs fuel ls c c1 hs hp hs1, hr]
  simp

theorem header_step (fs : file_system) (W : Nat) (U : List Nat) (c : http_conn)
    (h R : List Nat) (fuel : Nat) (ls : LINE_STATUS) (hinv : headers_inv W U c)
    (hbuf : c.m_read_buf.drop c.m_checked_idx = h ++ CR :: LF :: R)
    (hclean : ∀ b ∈ h, b ≠ 0 ∧ b ≠ CR ∧ b ≠ LF) (hne : h ≠ [])
    (hcl : announced_length h = 0)
    (hread : c.m_checked_idx + h.length + 2 ≤ c.m_read_idx) :
    ∃ c1, process_read_loop fs (fuel + 1) ls c = process_read_loop fs fuel LINE_OK c1
      ∧ headers_inv W U c1
      ∧ c1.m_checked_idx = c.m_checked_idx + h.length + 2
      ∧ c1.m_read_buf.drop c1.m_checked_idx = R
      ∧ c1.m_read_idx = c.m_read_idx
      ∧ (c.m_linger = true → c1.m_linger = true)
      ∧ (h = bytes "Connection: keep-alive" → c1.m_linger = true) := by
  obtain ⟨hstate, hsl, hc0, ⟨w, r, hurl, hU, hw⟩, hholds, hrf⟩ := hinv
  have hpl := parse_line_crlf c h R hbuf (fun b hb => (hclean b hb).2) hread
  have hdrop := drop_set_crlf _ _ h R hbuf
  have hstr : str_at ((c.m_read_buf.set (c.m_checked_idx + h.length) 0).set
      (c.m_checked_idx + h.length + 1) 0) c.m_start_line h (0 :: R) :=
    ⟨by rw [hsl]; exact hdrop, fun b hb => (hclean b hb).1⟩
  obtain ⟨host, linger, hph, hl1, hl2⟩ := parse_headers_line
    ({ c with
        m_read_buf := (c.m_read_buf.set (c.m_checked_idx + h.length) 0).set
          (c.m_checked_idx + h.length + 1) 0
        m_checked_idx := c.m_checked_idx + h.length + 2
        m_start_line := c.m_checked_idx + h.length + 2 } : http_conn)
    c.m_start_line h (0 :: R) hstr hne hcl hc0
  have hU2 := str_at_set_behind (str_at_set_behind hU (c.m_checked_idx + h.length) 0 (by omega))
    (c.m_checked_idx + h.length + 1) 0 (by omega)
  refine ⟨({ c with
        m_read_buf := (c.m_read_buf.set (c.m_checked_idx + h.length) 0).set
          (c.m_checked_idx + h.length + 1) 0
        m_checked_idx := c.m_checked_idx + h.length + 2
        m_start_line := c.m_checked_idx + h.length + 2
        m_host := host
        m_linger := linger } : http_conn), ?_,
    ⟨hstate, rfl, hc0, ⟨w, _, hurl, hU2, by simp only; omega⟩, hholds, hrf⟩,
    rfl, drop_past_line _ _ h R hdrop, rfl, hl1, hl2⟩
  exact process_read_loop_next_header fs fuel ls c _ _ hstate hpl hstate hph

theorem header_end (fs : file_system) (W : Nat) (U : List Nat) (c : http_conn)
    (R : List Nat) (fuel : Nat) (ls : LINE_STATUS) (hinv : headers_inv W U c)
    (hbuf : c.m_read_buf.drop c.m_checked_idx = CR :: LF :: R)
    (hread : c.m_checked_idx + 2 ≤ c.m_read_idx) :
    ∃ c1, process_read_loop fs (fuel + 1) ls c = some (do_request fs c1)
      ∧ headers_inv W U c1 ∧ c1.m_linger = c.m_linger := by
  obtain ⟨hstate, hsl, hc0, ⟨w, r, hurl, hU, hw⟩, hholds, hrf⟩ := hinv
  have hpl := parse_line_crlf c [] R hbuf (by simp) hread
  have hdrop := drop_set_crlf _ _ [] R hbuf
  simp only [List.length_nil, Nat.add_zero, List.nil_append] at hpl hdrop
  have hb : byteAt ((c.m_read_buf.set c.m_checked_idx 0).set (c.m_checked_idx + 1) 0)
      c.m_start_line = 0 := by
    rw [hsl]; exact byteAt_of_drop hdrop
  have hU2 := str_at_set_behind (str_at_set_behind hU c.m_checked_idx 0 (by omega))
    (c.m_checked_idx + 1) 0 (by omega)
  have hph : parse_headers
      ({ c with
          m_read_buf := (c.m_read_buf.set c.m_checked_idx 0).set (c.m_checked_idx + 1) 0
          m_checked_idx := c.m_checked_idx + 2
          m_start_line := c.m_checked_idx + 2 } : http_conn) c.m_start_line
      = (GET_REQUEST,
        ({ c with
          m_read_buf := (c.m_read_buf.set c.m_checked_idx 0).set (c.m_checked_idx + 1) 0
          m_checked_idx := c.m_checked_idx + 2
          m_start_line := c.m_checked_idx + 2 } : http_conn)) := by
    simp only [parse_headers, hb, hc0, if_true, ne_eq, not_true_eq_false, if_false]
  refine ⟨({ c with
          m_read_buf := (c.m_read_buf.set c.m_checked_idx 0).set (c.m_checked_idx + 1) 0
          m_checked_idx := c.m_checked_idx + 2
          m_start_line := c.m_checked_idx + 2 } : http_conn), ?_,
    ⟨hstate, rfl, hc0, ⟨w, _, hurl, hU2, by simp only; omega⟩, hholds, hrf⟩, rfl⟩
  exact process_read_loop_last_header fs fuel ls c _ _ hstate hpl hstate hph

/-- The loop of `process_read` over header lines that announce no body, up to
the empty line: it ends in `do_request`, and the keep-alive flag is set when it
was set before or one of the lines is "Connection: keep-alive". -/
theorem header_loop (fs : file_system) (W : Nat) (U : List Nat) :
    ∀ (hs : List (List Nat)) (c : http_conn) (fuel : Nat) (ls : LINE_STATUS) (R : List Nat),
      headers_inv W U c →
      c.m_read_buf.drop c.m_checked_idx = header_block hs ++ CR :: LF :: R →
      (∀ h ∈ hs, h ≠ [] ∧ (∀ b ∈ h, b ≠ 0 ∧ b ≠ CR ∧ b ≠ LF) ∧ announced_length h = 0) →
      c.m_checked_idx + (header_block hs).length + 2 ≤ c.m_read_idx →
      hs.length + 1 ≤ fuel →
      ∃ c1, process_read_loop fs fuel ls c = some (do_request fs c1)
        ∧ headers_inv W U c1
        ∧ (c.m_linger = true ∨ bytes "Connection: keep-alive" ∈ hs → c1.m_linger = true) := by
  intro hs
  induction hs with
  | nil =>
    intro c fuel ls R hinv hbuf _ hread hfuel
    obtain ⟨n, rfl⟩ : ∃ n, fuel = n + 1 := ⟨fuel - 1, by simp at hfuel; omega⟩
    simp only [header_block, List.nil_append, List.length_nil, Nat.add_zero] at hbuf hread
    obtain ⟨c1, h1, h2, h3⟩ := header_end fs W U c R n ls hinv hbuf hread
    refine ⟨c1, h1, h2, fun hk => ?_⟩
    rcases hk with hk | hk
    · rw [h3, hk]
    · simp at hk
  | cons h t ih =>
    intro c fuel ls R hinv hbuf hall hread hfuel
    obtain ⟨n, rfl⟩ : ∃ n, fuel = n + 1 := ⟨fuel - 1, by simp at hfuel; omega⟩
    simp only [header_block, List.length_append, List.length_cons] at hbuf hread
    have hh := hall h (by simp)
    obtain ⟨c1, e1, hinv1, hck, hbuf1, hri, hl1, hl2⟩ := header_step fs W U c h
      (header_block t ++ CR :: LF :: R) n ls hinv
      (by rw [hbuf]; simp) hh.2.1 hh.1 hh.2.2 (by omega)
    obtain ⟨c2, e2, hinv2, hl3⟩ := ih c1 n LINE_OK R hinv1 hbuf1
      (fun x hx => hall x (by simp [hx])) (by rw [hck, hri]; omega)
      (by simp only [List.length_cons] at hfuel; omega)
    refine ⟨c2, by rw [e1, e2], hinv2, fun hk => hl3 ?_⟩
    rcases hk with hk | hk
    · exact Or.inl (hl1 hk)
    · rcases List.mem_cons.1 hk with hk | hk
      · exact Or.inl (hl2 hk.symm)
      · exact Or.inr hk

theorem length_le_header_block (hs : List (List Nat)) : hs.length ≤ (header_block hs).length := by
  induction hs with
  | nil => simp [header_block]
  | cons h t ih => simp only [header_block, List.length_append, List.length_cons]; omega

/-- The iteration of the loop of `process_read` on a well-formed request line:
the loop goes on in the state described by `headers_inv`. -/
theorem request_line_step (fs : file_system) (W : Nat) (c : http_conn)
    (line R : List Nat) (fuel : Nat) (ls : LINE_STATUS) (m ws1 url ws2 ver : List Nat)
    (hst : c.m_check_state = CHECK_STATE_REQUESTLINE)
    (hsl : c.m_start_line = c.m_checked_idx)
    (hbuf : c.m_read_buf.drop c.m_checked_idx = line ++ CR :: LF :: R)
    (hclean : ∀ b ∈ line, b ≠ 0 ∧ b ≠ CR ∧ b ≠ LF)
    (hread : c.m_checked_idx + line.length + 2 ≤ c.m_read_idx)
    (hshape : is_request_line line m ws1 url ws2 ver)
    (hc0 : c.m_content_length = 0) (hw : holds W c [])
    (hrf : c.m_real_file = List.replicate FILENAME_LEN 0) :
    ∃ c1, process_read_loop fs (fuel + 1) ls c = process_read_loop fs fuel LINE_OK c1
      ∧ headers_inv W (stored_url url) c1
      ∧ c1.m_checked_idx = c.m_checked_idx + line.length + 2
      ∧ c1.m_read_buf.drop c1.m_checked_idx = R
      ∧ c1.m_read_idx = c.m_read_idx
      ∧ c1.m_linger = c.m_linger := by
  have hpl := parse_line_crlf c line R hbuf (fun b hb => (hclean b hb).2) hread
  have hdrop := drop_set_crlf _ _ line R hbuf
  have hstr : str_at ((c.m_read_buf.set (c.m_checked_idx + line.length) 0).set
      (c.m_checked_idx + line.length + 1) 0) c.m_start_line line (0 :: R) :=
    ⟨by rw [hsl]; exact hdrop, fun b hb => (hclean b hb).1⟩
  have hspec := parse_request_line_spec
    ({ c with
        m_read_buf := (c.m_read_buf.set (c.m_checked_idx + line.length) 0).set
          (c.m_checked_idx + line.length + 1) 0
        m_checked_idx := c.m_checked_idx + line.length + 2
        m_start_line := c.m_checked_idx + line.length + 2 } : http_conn)
    c.m_start_line line (0 :: R) hstr
  rw [request_line_url_of_shape hshape] at hspec
  obtain ⟨buf, w, v, r, ver1, hpr, hU, hV, hwv, hlen⟩ := hspec
  have l1 := str_at_len hstr
  have l2 := str_at_len hV
  simp only at hlen
  rw [hsl] at l1
  have hpos : v + ver1.length = c.m_checked_idx + line.length := by omega
  have hR : buf.drop (c.m_checked_idx + line.length + 2) = R := by
    rw [← hpos]; exact drop_past_line buf v ver1 R hV.1
  refine ⟨_, process_read_loop_next_line fs fuel ls c _ _ hst hpl hst hpr,
    ⟨rfl, rfl, hc0, ⟨w, r, rfl, hU, by simp only; omega⟩, hw, hrf⟩, rfl, hR, rfl, rfl⟩

/-- The function `process_read` on a request without a body, received at
once by a connection that has just been initialised: the request is complete
and is passed to `do_request`, in a state that holds the stored URL, and the
keep-alive flag is set when a header "Connection: keep-alive" is present. -/
theorem process_read_bodiless (fs : file_system) (W : Nat) (c : http_conn)
    (line m ws1 url ws2 ver : List Nat) (hs : List (List Nat))
    (hshape : is_request_line line m ws1 url ws2 ver)
    (hclean : ∀ b ∈ line, b ≠ 0 ∧ b ≠ CR ∧ b ≠ LF)
    (hall : ∀ h ∈ hs, h ≠ [] ∧ (∀ b ∈ h, b ≠ 0 ∧ b ≠ CR ∧ b ≠ LF) ∧ announced_length h = 0)
    (hlen : (request_bytes line hs).length ≤ READ_BUFFER_SIZE) :
    ∃ c1 c2,
      read (init W c) [recv_result.data (request_bytes line hs), recv_result.eagain]
        = some (true, c1)
      ∧ process_read fs c1 = some (do_request fs c2)
      ∧ headers_inv W (stored_url url) c2
      ∧ (bytes "Connection: keep-alive" ∈ hs → c2.m_linger = true) := by
  have hread := read_init W c (request_bytes line hs) (by simp [request_bytes]) hlen
  have h0 : (init W c).m_checked_idx = 0 := rfl
  have hl := length_le_header_block hs
  have hreq : (request_bytes line hs).length = line.length + 2 + (header_block hs).length + 2 := by
    simp only [request_bytes, List.length_append, List.length_cons, List.length_nil]; omega
  obtain ⟨c1, e1, hinv1, hck, hbuf1, hri, -⟩ := request_line_step fs W
    (received W c (request_bytes line hs)) line
    (header_block hs ++ CR :: LF ::
      List.replicate (READ_BUFFER_SIZE - (request_bytes line hs).length) 0)
    ((request_bytes line hs).length + 1) LINE_OK m ws1 url ws2 ver rfl rfl
    (by simp [received, h0, request_bytes]) hclean
    (by simp only [received, h0]; omega)
    hshape rfl ⟨by simp [received, init], by simp [received, init, rendered], rfl⟩ rfl
  have hck1 : c1.m_checked_idx = line.length + 2 := by rw [hck]; simp [received, h0]
  have hri1 : c1.m_read_idx = (request_bytes line hs).length := by rw [hri]; rfl
  obtain ⟨c2, e2, hinv2, hk⟩ := header_loop fs W (stored_url url) hs c1
    ((request_bytes line hs).length + 1) LINE_OK _ hinv1 hbuf1 hall
    (by rw [hck1, hri1]; omega) (by omega)
  refine ⟨_, c2, hread, ?_, hinv2, fun h => hk (Or.inr h)⟩
  have : process_read fs (received W c (request_bytes line hs))
      = process_read_loop fs ((request_bytes line hs).length + 1 + 1) LINE_OK
        (received W c (request_bytes line hs)) := by
    simp only [process_read, received, h0, Nat.sub_zero]
  rw [this, e1, e2]

set_option maxRecDepth 100000 in
/-- Why the header lines of a request that is resolved at once must not
announce a body: the request below is made of a valid GET request line, the
header "Connection: keep-alive", a further header and the empty line, and the
file exists, is readable by others, is no directory and has five bytes; but the
further header announces a body of five bytes, and `process_read` returns
`NO_REQUEST`, not `FILE_REQUEST`: it waits for the body. -/
theorem file_request_announcing_body_waits :
    (on_readable example_fs (init 1024 blank)
        (bytes "GET /index.html HTTP/1.1\r\nConnection: keep-alive\r\nContent-Length: 5\r\n\r\n")).map
      Prod.fst = some NO_REQUEST
    ∧ example_fs.stat (resolved_path (bytes "/index.html")) = some ⟨0o100644, 5⟩
    ∧ S_IROTH 0o100644 = true ∧ S_ISDIR 0o100644 = false := by
  decide

/-- C2 (defect of the code): whenever the tokenizer is called at the start of
`process_read` (the main state is not `CHECK_STATE_CONTENT`) and returns
`LINE_BAD`, the loop ends and `process_read` returns `NO_REQUEST`, not
`BAD_REQUEST`. -/
theorem process_read_line_bad_is_no_request (fs : file_system) (c : http_conn)
    (hs : c.m_check_state ≠ CHECK_STATE_CONTENT) (hb : (parse_line c).1 = LINE_BAD) :
    process_read fs c = some (NO_REQUEST, (parse_line c).2) := by
  simp [process_read, process_read_loop, hs, hb]

set_option maxRecDepth 100000 in
/-- The request line "GET / HTTP/1.1" ended by a bare line feed: the tokenizer
returns `LINE_BAD` and `process_read` returns `NO_REQUEST`. -/
theorem process_read_line_bad_is_no_request_witness :
    read (init 1024 blank) [recv_result.data (bytes "GET / HTTP/1.1\n"), recv_result.eagain]
      = some (true, bare_lf_example)
    ∧ (parse_line bare_lf_example).1 = LINE_BAD
    ∧ process_read example_fs bare_lf_example
      = some (NO_REQUEST, (parse_line bare_lf_example).2) :=
  ⟨by decide, by decide,
    process_read_line_bad_is_no_request example_fs bare_lf_example (by decide) (by decide)⟩

theorem forbidden_text (linger : Bool) :
    response_head 404 error_403_title error_403_form.length linger ++ error_403_form
      = bytes "HTTP/1.1 404 Forbidden\r\n" ++ bytes "Content_Length: 57\r\n"
        ++ (bytes "Connection: " ++ (if linger = true then bytes "keep-alive" else bytes "close")
          ++ bytes "\r\n")
        ++ bytes "\r\n" ++ error_403_form := by
  cases linger <;> decide

/-- C5 (defect of the code): in every state with an empty write buffer that
has room for the response, `process_write(FORBIDDEN_REQUEST)` succeeds with
one segment whose status line carries the code 404, "HTTP/1.1 404 Forbidden",
not 403. -/
theorem process_write_forbidden_status_404 (W : Nat) (c : http_conn) (hc : holds W c [])
    (hW : 129 ≤ W) :
    (process_write W c FORBIDDEN_REQUEST).1 = true
    ∧ (process_write W c FORBIDDEN_REQUEST).2.m_iv_count = 1
    ∧ (process_write W c FORBIDDEN_REQUEST).2.m_iv0
      = ⟨iov_base.write_buf, (process_write W c FORBIDDEN_REQUEST).2.m_write_idx⟩
    ∧ rendered (process_write W c FORBIDDEN_REQUEST).2
      = bytes "HTTP/1.1 404 Forbidden\r\n" ++ bytes "Content_Length: 57\r\n"
        ++ (bytes "Connection: "
          ++ (if c.m_linger = true then bytes "keep-alive" else bytes "close") ++ bytes "\r\n")
        ++ bytes "\r\n" ++ error_403_form := by
  have hlen : (response_head 404 error_403_title error_403_form.length c.m_linger
      ++ error_403_form).length + 2 ≤ W := by
    have : ∀ l : Bool, (response_head 404 error_403_title error_403_form.length l
        ++ error_403_form).length ≤ 127 := by decide
    have := this c.m_linger
    omega
  have h := one_segment_error_case W c 404 error_403_title error_403_form hc hlen
    (process_write W c FORBIDDEN_REQUEST) rfl
  rw [forbidden_text] at h
  exact h

set_option maxRecDepth 100000 in
/-- The forbidden outcome rendered by a freshly initialised connection with a
write buffer of 1024 bytes. -/
theorem process_write_forbidden_status_404_witness :
    holds 1024 (init 1024 blank) []
    ∧ rendered (process_write 1024 (init 1024 blank) FORBIDDEN_REQUEST).2
      = bytes "HTTP/1.1 404 Forbidden\r\n" ++ bytes "Content_Length: 57\r\n"
        ++ (bytes "Connection: "
          ++ (if (init 1024 blank).m_linger = true then bytes "keep-alive" else bytes "close")
          ++ bytes "\r\n")
        ++ bytes "\r\n" ++ error_403_form :=
  ⟨by unfold holds; decide,
    (process_write_forbidden_status_404 1024 (init 1024 blank) (by unfold holds; decide)
      (by decide)).2.2.2⟩

/-! ### Termination of the main state machine -/

theorem parse_line_loop_ok (fuel : Nat) :
    ∀ (c c1 : http_conn), parse_line_loop fuel c = (LINE_OK, c1) →
      c1.m_read_idx = c.m_read_idx ∧ c1.m_check_state = c.m_check_state
      ∧ c.m_checked_idx < c1.m_checked_idx ∧ c1.m_checked_idx ≤ c.m_read_idx := by
  induction fuel with
  | zero =>
    intro c c1 h
    simp [parse_line_loop] at h
  | succ n ih =>
    intro c c1 h
    simp only [parse_line_loop] at h
    by_cases h1 : c.m_checked_idx < c.m_read_idx
    · simp only [h1, if_true] at h
      by_cases hcr : byteAt c.m_read_buf c.m_checked_idx = CR
      · simp only [hcr, if_true] at h
        by_cases h2 : c.m_checked_idx + 1 = c.m_read_idx
        · simp [h2] at h
        · simp only [h2, if_false] at h
          by_cases h3 : byteAt c.m_read_buf (c.m_checked_idx + 1) = LF
          · simp only [h3, if_true, Prod.mk.injEq, true_and] at h
            subst h
            exact ⟨rfl, rfl, by simp only; omega, by simp only; omega⟩
          · simp [h3] at h
      · simp only [hcr, if_false] at h
        by_cases hlf : byteAt c.m_read_buf c.m_checked_idx = LF
        · simp only [hlf, if_true] at h
          by_cases h4 : c.m_checked_idx > 1 ∧ byteAt c.m_read_buf (c.m_checked_idx - 1) = CR
          · simp only [h4, and_self, if_true, Prod.mk.injEq, true_and] at h
            subst h
            exact ⟨rfl, rfl, by simp only; omega, by simp only; omega⟩
          · simp [h4] at h
        · simp only [hlf, if_false] at h
          obtain ⟨a1, a2, a3, a4⟩ := ih _ c1 h
          exact ⟨a1, a2, by simp only at a3; omega, a4⟩
    · simp [h1] at h

theorem parse_headers_cursors (c : http_conn) (text : Nat) :
    (parse_headers c text).2.m_read_idx = c.m_read_idx
    ∧ (parse_headers c text).2.m_checked_idx = c.m_checked_idx := by
  unfold parse_headers
  repeat' (first | exact ⟨rfl, rfl⟩ | split_ifs | dsimp only)

theorem parse_content_frame (c : http_conn) (text : Nat) :
    (parse_content c text).2.m_read_idx = c.m_read_idx
    ∧ (parse_content c text).2.m_checked_idx = c.m_checked_idx
    ∧ (parse_content c text).2.m_check_state = c.m_check_state := by
  unfold parse_content
  split_ifs <;> exact ⟨rfl, rfl, rfl⟩

/-- The iteration of the loop of `process_read` that checks the body without a
call of the tokenizer. -/
theorem process_read_loop_content (fs : file_system) (fuel : Nat) (c : http_conn)
    (hs : c.m_check_state = CHECK_STATE_CONTENT) :
    process_read_loop fs (fuel + 1) LINE_OK c =
      if (parse_content { c with m_start_line := c.m_checked_idx } c.m_start_line).1
          = GET_REQUEST then
        some (do_request fs
          (parse_content { c with m_start_line := c.m_checked_idx } c.m_start_line).2)
      else
        process_read_loop fs fuel LINE_OPEN
          (parse_content { c with m_start_line := c.m_checked_idx } c.m_start_line).2 := by
  simp [process_read_loop, hs]

/-- One iteration of the loop of `process_read` in the third state, when the
tokenizer delivers a line. -/
theorem process_read_loop_content_line (fs : file_system) (fuel : Nat) (ls : LINE_STATUS)
    (c c1 : http_conn) (hs : c.m_check_state = CHECK_STATE_CONTENT) (hls : ls ≠ LINE_OK)
    (hp : parse_line c = (LINE_OK, c1)) (hs1 : c1.m_check_state = CHECK_STATE_CONTENT) :
    process_read_loop fs (fuel + 1) ls c =
      if (parse_content { c1 with m_start_line := c1.m_checked_idx } c1.m_start_line).1
          = GET_REQUEST then
        some (do_request fs
          (parse_content { c1 with m_start_line := c1.m_checked_idx } c1.m_start_line).2)
      else
        process_read_loop fs fuel LINE_OPEN
          (parse_content { c1 with m_start_line := c1.m_checked_idx } c1.m_start_line).2 := by
  simp [process_read_loop, hs, hls, hp, hs1]

/-- The loop of `process_read` ends with `NO_REQUEST` when the tokenizer is
called and delivers no line. -/
theorem process_read_loop_exit (fs : file_system) (fuel : Nat) (ls : LINE_STATUS)
    (c : http_conn) (hA : ¬ (c.m_check_state = CHECK_STATE_CONTENT ∧ ls = LINE_OK))
    (hp : (parse_line c).1 ≠ LINE_OK) :
    process_read_loop fs (fuel + 1) ls c = some (NO_REQUEST, (parse_line c).2) := by
  simp [process_read_loop, hA, hp]

/-- C18: releasing the mapped file is idempotent. In every state a second
`unmap()` changes nothing, after `unmap()` the pointer `m_file_address` is
null, and the two calls together perform `munmap` once when a mapping was held
and not at all when the pointer was null. -/
theorem unmap_idempotent (c : http_conn) :
    unmap (unmap c) = unmap c
    ∧ (unmap c).m_file_address = 0
    ∧ (unmap (unmap c)).trace
      = (if c.m_file_address ≠ 0 then
          sys_call.munmap c.m_file_address c.m_file_stat.st_size :: c.trace
        else c.trace) := by
  by_cases h : c.m_file_address = 0
  · simp [unmap, h]
  · simp [unmap, h]

theorem unmap_eq (c : http_conn) :
    ∃ tr, unmap c = { c with m_file_address := 0, trace := tr } := by
  by_cases h : c.m_file_address = 0
  · refine ⟨c.trace, ?_⟩
    simp only [unmap, h, ne_eq, not_true_eq_false, if_false]
    cases c
    simp_all
  · exact ⟨sys_call.munmap c.m_file_address c.m_file_stat.st_size :: c.trace,
      by simp only [unmap, h, ne_eq, not_false_eq_true, if_true]⟩

/-- The loop of `write` when every `writev` accepts bytes: if it returns, it
has released the mapping, and it has reinitialised the connection exactly when
the keep-alive flag was set. -/
theorem write_loop_completes (W : Nat) (rs : List writev_result) :
    ∀ (to_send have_send : Int) (c : http_conn) (b : Bool) (c1 : http_conn),
      (∀ r ∈ rs, ∃ n, r = writev_result.sent n) →
      write_loop W rs to_send have_send c = some (b, c1) →
      ∃ tr,
        (c.m_linger = false → b = false ∧ c1 = { c with m_file_address := 0, trace := tr })
        ∧ (c.m_linger = true →
            b = true ∧ c1 = { init W c with m_file_address := 0, trace := tr }) := by
  induction rs with
  | nil => intro _ _ c b c1 _ h; simp [write_loop] at h
  | cons r rs ih =>
    intro to_send have_send c b c1 hall h
    obtain ⟨n, rfl⟩ := hall r (by simp)
    simp only [write_loop] at h
    split_ifs at h with hdone hl
    · -- complete, keep-alive
      obtain ⟨tr, hu⟩ := unmap_eq
        { c with trace := sys_call.writev c.m_iv0 c.m_iv1 c.m_iv_count :: c.trace }
      rw [hu] at h hl
      simp only [Option.some.injEq, Prod.mk.injEq] at h
      obtain ⟨rfl, rfl⟩ := h
      have hc : c.m_linger = true := hl
      exact ⟨sys_call.modfd_in :: tr, fun h0 => by rw [hc] at h0; exact absurd h0 (by simp),
        fun _ => ⟨rfl, rfl⟩⟩
    · obtain ⟨tr, hu⟩ := unmap_eq
        { c with trace := sys_call.writev c.m_iv0 c.m_iv1 c.m_iv_count :: c.trace }
      rw [hu] at h hl
      simp only [Option.some.injEq, Prod.mk.injEq] at h
      obtain ⟨rfl, rfl⟩ := h
      have hc : c.m_linger = false := by simpa using hl
      exact ⟨sys_call.modfd_in :: tr, fun _ => ⟨rfl, rfl⟩,
        fun h0 => by rw [hc] at h0; exact absurd h0 (by simp)⟩
    · obtain ⟨tr, h1, h2⟩ := ih _ _ _ b c1 (fun x hx => hall x (by simp [hx])) h
      exact ⟨tr, h1, h2⟩

/-- C11: completion of a response in `write()`. A response is pending
(`m_write_idx` is not 0), every `writev` of the call accepts bytes, and the
call returns, that is, the send completes. If the keep-alive flag is false,
`write()` returns false and the connection is as before but for the released
mapping and the recorded system calls. If the flag is true, `write()` returns
true, the parse state is `CHECK_STATE_REQUESTLINE`, the four cursors are 0,
URL, version and host are null, the content length is 0, the flag is false and
both buffers are zero-filled. In both cases `m_file_address` is null. -/
theorem write_completion (W : Nat) (c : http_conn) (rs : List writev_result)
    (b : Bool) (c1 : http_conn)
    (hpending : c.m_write_idx ≠ 0)
    (hsent : ∀ r ∈ rs, ∃ n, r = writev_result.sent n)
    (hdone : write W c rs = some (b, c1)) :
    c1.m_file_address = 0
    ∧ (c.m_linger = false →
        b = false ∧ c1 = { c with m_file_address := 0, trace := c1.trace })
    ∧ (c.m_linger = true →
        b = true
        ∧ c1.m_check_state = CHECK_STATE_REQUESTLINE
        ∧ c1.m_read_idx = 0 ∧ c1.m_checked_idx = 0 ∧ c1.m_start_line = 0 ∧ c1.m_write_idx = 0
        ∧ c1.m_url = none ∧ c1.m_version = none ∧ c1.m_host = none
        ∧ c1.m_content_length = 0 ∧ c1.m_linger = false
        ∧ c1.m_read_buf = List.replicate READ_BUFFER_SIZE 0
        ∧ c1.m_write_buf = List.replicate W 0) := by
  simp only [write, hpending, if_false] at hdone
  obtain ⟨tr, h1, h2⟩ := write_loop_completes W rs _ _ c b c1 hsent hdone
  refine ⟨?_, fun hl => ?_, fun hl => ?_⟩
  · cases hl : c.m_linger
    · rw [(h1 hl).2]
    · rw [(h2 hl).2]
  · obtain ⟨hb, hc⟩ := h1 hl
    refine ⟨hb, ?_⟩
    rw [hc]
  · obtain ⟨hb, hc⟩ := h2 hl
    rw [hc]
    exact ⟨hb, rfl, rfl, rfl, rfl, rfl, rfl, rfl, rfl, rfl, rfl, rfl, rfl⟩

set_option maxRecDepth 100000 in
/-- The prepared response for a file of 1000 bytes on a connection without
keep-alive: `writev` accepts 60 bytes, `write` returns false and the mapping
is released. -/
theorem write_completion_witness :
    prepared_file_response.m_write_idx ≠ 0
    ∧ write 1024 prepared_file_response [writev_result.sent 60] = some (false, write_done_example)
    ∧ write_done_example.m_file_address = 0 := by
  have h1 : prepared_file_response.m_write_idx ≠ 0 := by decide
  have h2 : write 1024 prepared_file_response [writev_result.sent 60]
      = some (false, write_done_example) := by decide
  exact ⟨h1, h2,
    (write_completion 1024 prepared_file_response [writev_result.sent 60] false _ h1
      (by simp) h2).1⟩

/-! ### Lengths the client announces -/

set_option maxRecDepth 100000 in
/-- C13 (defect of the code): the value of a Content-Length header is stored
as `atol` reads it, sign included, and the end of the headers tests it against
zero only. After "Content-Length: -5" the stored length is -5; the empty line
that follows switches to `CHECK_STATE_CONTENT`, and `parse_headers` on an empty
line with a stored length of -5 returns `NO_REQUEST` in that state. -/
theorem negative_content_length_enters_content :
    (on_readable example_fs (init 1024 blank)
        (bytes "GET / HTTP/1.1\r\nContent-Length: -5\r\n")).map
        (fun r => (r.1, r.2.m_check_state, r.2.m_content_length))
      = some (NO_REQUEST, CHECK_STATE_HEADER, -5)
    ∧ (deliver example_fs (init 1024 blank)
        [bytes "GET / HTTP/1.1\r\nContent-Length: -5\r\n", bytes "\r\n"]).map
        (fun r => (r.2.m_check_state, r.2.m_content_length))
      = some (CHECK_STATE_CONTENT, -5)
    ∧ parse_headers { init 1024 blank with m_content_length := -5 } 0
      = (NO_REQUEST,
          { init 1024 blank with
            m_content_length := -5, m_check_state := CHECK_STATE_CONTENT }) := by
  decide

set_option maxRecDepth 100000 in
/-- C20 (defect of the code): `parse_content` stores the terminator outside
the read buffer in two reachable states. When a request fills the buffer
exactly (39 bytes of headers, then 985 bytes of body), `process_read` starts
with `parse_content`, which succeeds and stores at index 39 + 985 = 1024, one
behind the last byte. When the request announces a length of -100, the loop
reaches `parse_content` with the text at offset 40; it succeeds and stores at
index 40 - 100 = -60. -/
theorem parse_content_stores_outside :
    full_buffer_example.map
        (fun c => (c.m_check_state, c.m_read_idx, c.m_start_line,
          (parse_content { c with m_start_line := c.m_checked_idx } c.m_start_line).1,
          content_end { c with m_start_line := c.m_checked_idx } c.m_start_line))
      = some (CHECK_STATE_CONTENT, 1024, 39, GET_REQUEST, (READ_BUFFER_SIZE : Int))
    ∧ full_buffer_example.bind (process_read example_fs)
      = full_buffer_example.map (fun c => do_request example_fs
          (parse_content { c with m_start_line := c.m_checked_idx } c.m_start_line).2)
    ∧ (negative_length_example.m_check_state, negative_length_example.m_start_line,
        (parse_content
          { negative_length_example with m_start_line := negative_length_example.m_checked_idx }
          negative_length_example.m_start_line).1,
        content_end
          { negative_length_example with m_start_line := negative_length_example.m_checked_idx }
          negative_length_example.m_start_line)
      = (CHECK_STATE_CONTENT, 40, GET_REQUEST, -60)
    ∧ process_read example_fs
        (received 1024 blank (bytes "GET / HTTP/1.1\r\nContent-Length: -100\r\n\r\n"))
      = process_read_loop example_fs 1 LINE_OK negative_length_example := by
  decide

/-! ### The order of the checks of `do_request` -/

/-- The path buffer after `strcpy` and `strncpy`, for a buffer whose last byte
is NUL. -/
theorem path_buffer_any (rf R U : List Nat) (N : Nat) (hN : R.length + 2 ≤ N)
    (hlen : rf.length = N) (hlast : rf.drop (N - 1) = [0]) :
    write_at (write_at rf 0 (R ++ [0])) R.length (strncpy_bytes U (N - R.length - 1))
      = R ++ U.take (N - R.length - 1) ++ 0 :: List.replicate (N - R.length - 1 - U.length) 0 := by
  have e1 : write_at rf 0 (R ++ [0]) = R ++ 0 :: rf.drop (R.length + 1) := by
    simp only [write_at, List.take_zero, List.nil_append, Nat.zero_add, List.length_append,
      List.length_singleton]
    rw [List.take_of_length_le (by simp; omega)]
    simp
  have hX : (strncpy_bytes U (N - R.length - 1)).length = N - R.length - 1 := by
    simp only [strncpy_bytes, List.length_append, List.length_take, List.length_replicate]
    omega
  rw [e1]
  have hlen1 : (R ++ 0 :: rf.drop (R.length + 1)).length = N := by
    simp; omega
  have e2 : (R ++ 0 :: rf.drop (R.length + 1)).take R.length = R := List.take_left' rfl
  have e3 : (R ++ 0 :: rf.drop (R.length + 1)).drop (R.length + (N - R.length - 1)) = [0] := by
    rw [← List.drop_drop, List.drop_left' rfl]
    obtain ⟨k, hk⟩ : ∃ k, N - R.length - 1 = k + 1 := ⟨N - R.length - 2, by omega⟩
    rw [hk, List.drop_succ_cons, List.drop_drop]
    have : R.length + 1 + k = N - 1 := by omega
    rw [this, hlast]
  unfold write_at
  rw [hlen1, e2, hX, e3, List.take_of_length_le (by simp [hX]; omega)]
  simp only [strncpy_bytes, List.append_assoc]
  congr 2
  generalize N - R.length - 1 - U.length = k
  induction k with
  | zero => rfl
  | succ k ih => rw [List.replicate_succ, List.cons_append, ih]

theorem drop_last_of_byteAt (rf : List Nat) (N : Nat) (hN : 0 < N) (hlen : rf.length = N)
    (hlast : byteAt rf (N - 1) = 0) : rf.drop (N - 1) = [0] := by
  have h1 : (rf.drop (N - 1)).length = 1 := by simp; omega
  match h : rf.drop (N - 1), h1 with
  | [x], _ =>
    have := byteAt_of_drop h
    rw [hlast] at this
    rw [← this]

theorem cstr_path_bytes (U : List Nat) (hU : ∀ b ∈ U, b ≠ 0) :
    cstr (path_bytes U) 0 = resolved_path U := by
  unfold cstr path_bytes
  rw [List.drop_zero]
  apply takeWhile_append_stop
  · intro b hb
    unfold resolved_path at hb
    rcases List.mem_append.1 hb with h1 | h1
    · have : ∀ x ∈ doc_root, (x != 0) = true := by decide
      exact this b h1
    · simpa using hU b (List.mem_of_mem_take h1)
  · rfl

theorem length_resolved_path (U : List Nat) : (resolved_path U).length < FILENAME_LEN := by
  have h1 : doc_root.length = 13 := rfl
  have h2 : FILENAME_LEN = 200 := rfl
  simp only [resolved_path, List.length_append, List.length_take, h1, h2]
  omega

theorem byteAt_path_bytes (U : List Nat) (i : Nat) (h : (resolved_path U).length ≤ i) :
    byteAt (path_bytes U) i = 0 := by
  have e : path_bytes U
      = resolved_path U
        ++ List.replicate (FILENAME_LEN - doc_root.length - 1 - U.length + 1) 0 := by
    rw [List.replicate_succ]; rfl
  rw [e]
  simp only [byteAt, List.getD_eq_getElem?_getD, List.getElem?_append_right h,
    List.getElem?_replicate]
  split_ifs <;> rfl

theorem length_path_bytes (U : List Nat) : (path_bytes U).length = FILENAME_LEN := by
  have h1 : doc_root.length = 13 := rfl
  have h2 : FILENAME_LEN = 200 := rfl
  simp only [path_bytes, resolved_path, List.length_append, List.length_take, List.length_cons,
    List.length_replicate, h1, h2]
  omega

/-- C12: the order of the checks of `do_request`. For a validated URL (the
NUL-terminated string `U` at `m_url`) and a path buffer of `FILENAME_LEN` bytes
that ends in NUL, as `init()` leaves it, `do_request` fills the path buffer
with the document root followed by `U` cut to `FILENAME_LEN - len - 1` bytes, a
NUL and padding; the terminator lies inside the buffer, whose last byte stays
NUL. The outcome follows `stat` on that path: `NO_RESOURCE` when it fails;
else `FORBIDDEN_REQUEST` when the other-readable bit is clear, directory or
not; else `BAD_REQUEST` for a directory; else `FILE_REQUEST` with the file
mapped in its full length `st_size`. -/
theorem do_request_order (fs : file_system) (c : http_conn) (U : List Nat) (w : Nat)
    (r : List Nat) (hurl : c.m_url = some w) (hstr : str_at c.m_read_buf w U r)
    (hlen : c.m_real_file.length = FILENAME_LEN)
    (hlast : byteAt c.m_real_file (FILENAME_LEN - 1) = 0) :
    do_request fs c =
      (match fs.stat (resolved_path U) with
        | none => (NO_RESOURCE, { c with m_real_file := path_bytes U })
        | some st =>
          if S_IROTH st.st_mode = false then
            (FORBIDDEN_REQUEST, { c with m_real_file := path_bytes U, m_file_stat := st })
          else if S_ISDIR st.st_mode = true then
            (BAD_REQUEST, { c with m_real_file := path_bytes U, m_file_stat := st })
          else
            (FILE_REQUEST,
              { c with
                m_real_file := path_bytes U, m_file_stat := st
                m_file_address := fs.mmap (resolved_path U) st.st_size }))
    ∧ cstr (path_bytes U) 0 = resolved_path U
    ∧ (resolved_path U).length < FILENAME_LEN
    ∧ byteAt (path_bytes U) (resolved_path U).length = 0
    ∧ (path_bytes U).length = FILENAME_LEN
    ∧ byteAt (path_bytes U) (FILENAME_LEN - 1) = 0 := by
  have hpb : write_at (write_at c.m_real_file 0 (doc_root ++ [0])) doc_root.length
      (strncpy_bytes U (FILENAME_LEN - doc_root.length - 1)) = path_bytes U := by
    rw [path_buffer_any c.m_real_file doc_root U FILENAME_LEN (by decide) hlen
      (drop_last_of_byteAt _ _ (by decide) hlen hlast)]
    simp [path_bytes, resolved_path]
  have hc := cstr_path_bytes U hstr.2
  refine ⟨?_, hc, length_resolved_path U, ?_, length_path_bytes U, ?_⟩
  · simp only [do_request, hurl, cstr_of_str_at hstr, hpb, hc]
    cases fs.stat (resolved_path U) with
    | none => rfl
    | some st =>
      simp only
      cases S_IROTH st.st_mode <;> cases S_ISDIR st.st_mode <;> simp
  · exact byteAt_path_bytes U _ (Nat.le_refl _)
  · have := length_resolved_path U
    exact byteAt_path_bytes U _ (by omega)

set_option maxRecDepth 100000 in
/-- The URL "/index.html" on the example file system: the path is
"/var/www/html/index.html", a readable regular file of five bytes, and the
outcome is `FILE_REQUEST` with that file mapped. -/
theorem do_request_order_witness :
    url_example.m_url = some 4
    ∧ str_at url_example.m_read_buf 4 (bytes "/index.html") (bytes "HTTP/1.1\x00\x00")
    ∧ url_example.m_real_file.length = FILENAME_LEN
    ∧ byteAt url_example.m_real_file (FILENAME_LEN - 1) = 0
    ∧ do_request example_fs url_example =
        (FILE_REQUEST,
          { url_example with
            m_real_file := path_bytes (bytes "/index.html"), m_file_stat := ⟨0o100644, 5⟩
            m_file_address := 4096 })
    ∧ cstr (path_bytes (bytes "/index.html")) 0 = bytes "/var/www/html/index.html" := by
  have h1 : url_example.m_url = some 4 := rfl
  have h2 : str_at url_example.m_read_buf 4 (bytes "/index.html") (bytes "HTTP/1.1\x00\x00") :=
    ⟨by decide, by decide⟩
  have h3 : url_example.m_real_file.length = FILENAME_LEN := by decide
  have h4 : byteAt url_example.m_real_file (FILENAME_LEN - 1) = 0 := by decide
  have h := do_request_order example_fs url_example (bytes "/index.html") 4
    (bytes "HTTP/1.1\x00\x00") h1 h2 h3 h4
  exact ⟨h1, h2, h3, h4, h.1, h.2.1⟩

/-! ### The contract of the tokenizer -/

/-- The tokenizer changes the read buffer and the parse cursor only; the
buffer keeps its length and the cursor does not move back, nor past the read
cursor. -/
theorem parse_line_loop_frame (fuel : Nat) :
    ∀ c : http_conn, ∃ buf k,
      (parse_line_loop fuel c).2 = { c with m_read_buf := buf, m_checked_idx := k }
      ∧ buf.length = c.m_read_buf.length ∧ c.m_checked_idx ≤ k
      ∧ (c.m_checked_idx ≤ c.m_read_idx → k ≤ c.m_read_idx) := by
  induction fuel with
  | zero => intro c; exact ⟨c.m_read_buf, c.m_checked_idx, rfl, rfl, Nat.le_refl _, fun h => h⟩
  | succ n ih =>
    intro c
    have hsame : ∃ buf k,
        c = { c with m_read_buf := buf, m_checked_idx := k }
        ∧ buf.length = c.m_read_buf.length ∧ c.m_checked_idx ≤ k
        ∧ (c.m_checked_idx ≤ c.m_read_idx → k ≤ c.m_read_idx) :=
      ⟨c.m_read_buf, c.m_checked_idx, rfl, rfl, Nat.le_refl _, fun h => h⟩
    simp only [parse_line_loop]
    by_cases h1 : c.m_checked_idx < c.m_read_idx
    · simp only [h1, if_true]
      by_cases hcr : byteAt c.m_read_buf c.m_checked_idx = CR
      · simp only [hcr, if_true]
        by_cases h2 : c.m_checked_idx + 1 = c.m_read_idx
        · simp only [h2, if_true]; exact hsame
        · simp only [h2, if_false]
          by_cases h3 : byteAt c.m_read_buf (c.m_checked_idx + 1) = LF
          · simp only [h3, if_true]
            exact ⟨_, _, rfl, by simp, by omega, fun _ => by omega⟩
          · simp only [h3, if_false]; exact hsame
      · simp only [hcr, if_false]
        by_cases hlf : byteAt c.m_read_buf c.m_checked_idx = LF
        · simp only [hlf, if_true]
          by_cases h4 : c.m_checked_idx > 1 ∧ byteAt c.m_read_buf (c.m_checked_idx - 1) = CR
          · simp only [h4, and_self, if_true]
            exact ⟨_, _, rfl, by simp, by omega, fun _ => by omega⟩
          · simp only [h4, if_false]; exact hsame
        · simp only [hlf, if_false]
          obtain ⟨buf, k, e, hl, hk, hr⟩ := ih { c with m_checked_idx := c.m_checked_idx + 1 }
          exact ⟨buf, k, e, hl, by simp only at hk; omega, fun _ => hr (by simp only; omega)⟩
    · simp only [h1, if_false]; exact hsame

/-- When the tokenizer returns `LINE_OK`, the two bytes in front of the new
parse cursor were CR and LF, and they are the two bytes it has overwritten. -/
theorem parse_line_loop_terminator (fuel : Nat) :
    ∀ (c c1 : http_conn), parse_line_loop fuel c = (LINE_OK, c1) →
      2 ≤ c1.m_checked_idx
      ∧ byteAt c.m_read_buf (c1.m_checked_idx - 2) = CR
      ∧ byteAt c.m_read_buf (c1.m_checked_idx - 1) = LF
      ∧ c1.m_read_buf
        = (c.m_read_buf.set (c1.m_checked_idx - 2) 0).set (c1.m_checked_idx - 1) 0 := by
  induction fuel with
  | zero =>
    intro c c1 h
    simp [parse_line_loop] at h
  | succ n ih =>
    intro c c1 h
    simp only [parse_line_loop] at h
    by_cases h1 : c.m_checked_idx < c.m_read_idx
    · simp only [h1, if_true] at h
      by_cases hcr : byteAt c.m_read_buf c.m_checked_idx = CR
      · simp only [hcr, if_true] at h
        by_cases h2 : c.m_checked_idx + 1 = c.m_read_idx
        · simp [h2] at h
        · simp only [h2, if_false] at h
          by_cases h3 : byteAt c.m_read_buf (c.m_checked_idx + 1) = LF
          · simp only [h3, if_true, Prod.mk.injEq, true_and] at h
            subst h
            have e1 : c.m_checked_idx + 2 - 2 = c.m_checked_idx := by omega
            have e2 : c.m_checked_idx + 2 - 1 = c.m_checked_idx + 1 := by omega
            refine ⟨by simp only; omega, ?_, ?_, ?_⟩
            · simp only [e1]; exact hcr
            · simp only [e2]; exact h3
            · simp only [e1, e2]
          · simp [h3] at h
      · simp only [hcr, if_false] at h
        by_cases hlf : byteAt c.m_read_buf c.m_checked_idx = LF
        · simp only [hlf, if_true] at h
          by_cases h4 : c.m_checked_idx > 1 ∧ byteAt c.m_read_buf (c.m_checked_idx - 1) = CR
          · simp only [h4, and_self, if_true, Prod.mk.injEq, true_and] at h
            subst h
            have e1 : c.m_checked_idx + 1 - 2 = c.m_checked_idx - 1 := by omega
            have e2 : c.m_checked_idx + 1 - 1 = c.m_checked_idx := by omega
            refine ⟨by simp only; omega, ?_, ?_, ?_⟩
            · simp only [e1]; exact h4.2
            · simp only [e2]; exact hlf
            · simp only [e1, e2]
          · simp [h4] at h
        · simp only [hlf, if_false] at h
          have := ih { c with m_checked_idx := c.m_checked_idx + 1 } c1 h
          exact this
    · simp [h1] at h

/-- The tokenizer steps over bytes that are neither CR nor LF. -/
theorem parse_line_loop_skip (pre : List Nat) :
    ∀ (c : http_conn) (fuel : Nat) (rest : List Nat),
      c.m_read_buf.drop c.m_checked_idx = pre ++ rest →
      (∀ b ∈ pre, b ≠ CR ∧ b ≠ LF) →
      c.m_checked_idx + pre.length ≤ c.m_read_idx →
      parse_line_loop (pre.length + fuel) c
        = parse_line_loop fuel { c with m_checked_idx := c.m_checked_idx + pre.length } := by
  induction pre with
  | nil => intro c fuel rest _ _ _; simp
  | cons a t ih =>
    intro c fuel rest hbuf hline hread
    simp only [List.length_cons] at hread
    have h0 : byteAt c.m_read_buf c.m_checked_idx = a := byteAt_of_drop hbuf
    have ha := hline a (by simp)
    have hstep := ih { c with m_checked_idx := c.m_checked_idx + 1 } fuel rest
      (by simp only; rw [← List.drop_drop, hbuf]; rfl)
      (fun b hb => hline b (by simp [hb]))
      (by simp only; omega)
    have e0 : (a :: t).length + fuel = (t.length + fuel) + 1 := by
      simp only [List.length_cons]; omega
    rw [e0]
    simp only [parse_line_loop, h0, ha.1, ha.2, if_false]
    rw [if_pos (by omega), hstep]
    simp only [List.length_cons]
    have e1 : c.m_checked_idx + 1 + t.length = c.m_checked_idx + (t.length + 1) := by omega
    rw [e1]

/-- The buffer behind the parse cursor starts with the unread bytes. -/
theorem drop_eq_unread (c : http_conn) :
    c.m_read_buf.drop c.m_checked_idx = unread c ++ c.m_read_buf.drop
      (c.m_checked_idx + (c.m_read_idx - c.m_checked_idx)) := by
  unfold unread
  rw [← List.drop_drop, List.take_append_drop]

theorem length_unread (c : http_conn) (hcap : c.m_read_idx ≤ c.m_read_buf.length) :
    (unread c).length = c.m_read_idx - c.m_checked_idx := by
  simp only [unread, List.length_take, List.length_drop]
  omega

theorem byteAt_set_ne (buf : List Nat) (i j v : Nat) (h : j ≠ i) :
    byteAt (buf.set i v) j = byteAt buf j := by
  simp only [byteAt, List.getD_eq_getElem?_getD, List.getElem?_set_ne (Ne.symm h)]

theorem byteAt_set_zero (buf : List Nat) (i : Nat) : byteAt (buf.set i 0) i = 0 := by
  simp only [byteAt, List.getD_eq_getElem?_getD, List.getElem?_set]
  split_ifs <;> simp

/-- C14: the contract of `parse_line` on input without a line feed in front of
the first carriage return. In a state with `m_checked_idx <= m_read_idx`, the
read cursor inside the buffer, and `pre` free of CR and LF: (1) when the unread
range is `pre`, the result is `LINE_OPEN` and the parse cursor becomes the read
cursor; (2) when it is `pre` and a final CR, the result is `LINE_OPEN` and the
parse cursor stops at that CR; (3) when `pre` is followed by CR LF, the result
is `LINE_OK`, the two bytes become NUL, the parse cursor is behind them, and no
other byte and no other field changes; (4) when the CR is followed by a byte
other than LF, the result is `LINE_BAD`, with the parse cursor at the CR. -/
theorem parse_line_contract (c : http_conn) (pre : List Nat)
    (hle : c.m_checked_idx ≤ c.m_read_idx) (hcap : c.m_read_idx ≤ c.m_read_buf.length)
    (hpre : ∀ b ∈ pre, b ≠ CR ∧ b ≠ LF) :
    (unread c = pre → parse_line c = (LINE_OPEN, { c with m_checked_idx := c.m_read_idx }))
    ∧ (unread c = pre ++ [CR] →
        parse_line c = (LINE_OPEN, { c with m_checked_idx := c.m_checked_idx + pre.length })
        ∧ c.m_checked_idx + pre.length + 1 = c.m_read_idx)
    ∧ (∀ rest, unread c = pre ++ CR :: LF :: rest →
        parse_line c =
          (LINE_OK,
            { c with
              m_read_buf :=
                (c.m_read_buf.set (c.m_checked_idx + pre.length) 0).set
                  (c.m_checked_idx + pre.length + 1) 0
              m_checked_idx := c.m_checked_idx + pre.length + 2 })
        ∧ byteAt (parse_line c).2.m_read_buf (c.m_checked_idx + pre.length) = 0
        ∧ byteAt (parse_line c).2.m_read_buf (c.m_checked_idx + pre.length + 1) = 0
        ∧ ∀ j, j ≠ c.m_checked_idx + pre.length → j ≠ c.m_checked_idx + pre.length + 1 →
            byteAt (parse_line c).2.m_read_buf j = byteAt c.m_read_buf j)
    ∧ (∀ x rest, x ≠ LF → unread c = pre ++ CR :: x :: rest →
        parse_line c = (LINE_BAD, { c with m_checked_idx := c.m_checked_idx + pre.length })) := by
  have hd := drop_eq_unread c
  have hl := length_unread c hcap
  refine ⟨fun hu => ?_, fun hu => ?_, fun rest hu => ?_, fun x rest hx hu => ?_⟩
  · rw [hu] at hd hl
    have := parse_line_loop_skip pre c 0 _ hd hpre (by omega)
    rw [Nat.add_zero, hl] at this
    rw [parse_line, this]
    have e : c.m_checked_idx + (c.m_read_idx - c.m_checked_idx) = c.m_read_idx := by omega
    rw [e]
    rfl
  · rw [hu] at hd hl
    simp only [List.length_append, List.length_singleton] at hl
    rw [List.append_assoc] at hd
    have := parse_line_loop_skip pre c 1 _ hd hpre (by omega)
    refine ⟨?_, by omega⟩
    rw [parse_line, ← hl, this]
    have h0 : byteAt c.m_read_buf (c.m_checked_idx + pre.length) = CR := by
      apply byteAt_of_drop (t := [] ++ c.m_read_buf.drop
        (c.m_checked_idx + (c.m_read_idx - c.m_checked_idx)))
      rw [← List.drop_drop, hd, List.drop_left' rfl]
      rfl
    simp only [parse_line_loop, h0, if_true]
    rw [if_pos (by omega), if_pos (by omega)]
  · rw [hu] at hd hl
    simp only [List.length_append, List.length_cons] at hl
    rw [List.append_assoc] at hd
    have hp := parse_line_crlf c pre _ hd hpre (by omega)
    refine ⟨hp, ?_, ?_, ?_⟩
    · rw [hp]
      simp only
      rw [byteAt_set_ne _ _ _ _ (by omega)]
      exact byteAt_set_zero _ _
    · rw [hp]
      exact byteAt_set_zero _ _
    · intro j h1 h2
      rw [hp]
      simp only
      rw [byteAt_set_ne _ _ _ _ h2, byteAt_set_ne _ _ _ _ h1]
  · rw [hu] at hd hl
    simp only [List.length_append, List.length_cons] at hl
    rw [List.append_assoc] at hd
    have := parse_line_loop_skip pre c (rest.length + 2) _ hd hpre (by omega)
    have e : c.m_read_idx - c.m_checked_idx = pre.length + (rest.length + 2) := by omega
    rw [parse_line, e, this]
    have h0 : byteAt c.m_read_buf (c.m_checked_idx + pre.length) = CR := by
      apply byteAt_of_drop (t := x :: rest ++ c.m_read_buf.drop
        (c.m_checked_idx + (c.m_read_idx - c.m_checked_idx)))
      rw [← List.drop_drop, hd, List.drop_left' rfl]
      rfl
    have h1 : byteAt c.m_read_buf (c.m_checked_idx + pre.length + 1) = x := by
      apply byteAt_of_drop (t := rest ++ c.m_read_buf.drop
        (c.m_checked_idx + (c.m_read_idx - c.m_checked_idx)))
      rw [← List.drop_drop, ← List.drop_drop, hd, List.drop_left' rfl]
      rfl
    simp only [parse_line_loop, h0, h1, hx, if_true, if_false]
    rw [if_pos (by omega), if_neg (by omega)]

set_option maxRecDepth 100000 in
/-- The four cases of the contract on "GET /a HTTP/1.1" followed by CR LF and
the beginning of a header: the tokenizer returns the request line. -/
theorem parse_line_contract_witness :
    (received 1024 blank (bytes "GET /a HTTP/1.1\r\nHost")).m_checked_idx
      ≤ (received 1024 blank (bytes "GET /a HTTP/1.1\r\nHost")).m_read_idx
    ∧ (received 1024 blank (bytes "GET /a HTTP/1.1\r\nHost")).m_read_idx
      ≤ (received 1024 blank (bytes "GET /a HTTP/1.1\r\nHost")).m_read_buf.length
    ∧ (∀ b ∈ bytes "GET /a HTTP/1.1", b ≠ CR ∧ b ≠ LF)
    ∧ unread (received 1024 blank (bytes "GET /a HTTP/1.1\r\nHost"))
      = bytes "GET /a HTTP/1.1" ++ CR :: LF :: bytes "Host"
    ∧ parse_line (received 1024 blank (bytes "GET /a HTTP/1.1\r\nHost")) =
        (LINE_OK,
          { received 1024 blank (bytes "GET /a HTTP/1.1\r\nHost") with
            m_read_buf :=
              ((received 1024 blank (bytes "GET /a HTTP/1.1\r\nHost")).m_read_buf.set 15 0).set
                16 0
            m_checked_idx := 17 }) := by
  have h1 : (received 1024 blank (bytes "GET /a HTTP/1.1\r\nHost")).m_checked_idx
      ≤ (received 1024 blank (bytes "GET /a HTTP/1.1\r\nHost")).m_read_idx := by decide
  have h2 : (received 1024 blank (bytes "GET /a HTTP/1.1\r\nHost")).m_read_idx
      ≤ (received 1024 blank (bytes "GET /a HTTP/1.1\r\nHost")).m_read_buf.length := by decide
  have h3 : ∀ b ∈ bytes "GET /a HTTP/1.1", b ≠ CR ∧ b ≠ LF := by decide
  have h4 : unread (received 1024 blank (bytes "GET /a HTTP/1.1\r\nHost"))
      = bytes "GET /a HTTP/1.1" ++ CR :: LF :: bytes "Host" := by decide
  exact ⟨h1, h2, h3, h4,
    ((parse_line_contract (received 1024 blank (bytes "GET /a HTTP/1.1\r\nHost"))
      (bytes "GET /a HTTP/1.1") h1 h2 h3).2.2.1 (bytes "Host") h4).1⟩

/-! ### The tokenizer as a monotone scan -/

/-- The function `read` changes the read buffer and the read cursor only; the
read cursor does not move back, nor past the end of the buffer. -/
theorem read_loop_frame (rs : List recv_result) :
    ∀ (c c1 : http_conn) (b : Bool), read_loop rs c = some (b, c1) →
      ∃ buf n, c1 = { c with m_read_buf := buf, m_read_idx := n }
        ∧ c.m_read_idx ≤ n ∧ (c.m_read_idx ≤ READ_BUFFER_SIZE → n ≤ READ_BUFFER_SIZE) := by
  induction rs with
  | nil => intro c c1 b h; simp [read_loop] at h
  | cons r rs ih =>
    intro c c1 b h
    cases r with
    | eagain =>
      simp only [read_loop, Option.some.injEq, Prod.mk.injEq] at h
      exact ⟨c.m_read_buf, c.m_read_idx, by rw [← h.2], Nat.le_refl _, fun h => h⟩
    | error =>
      simp only [read_loop, Option.some.injEq, Prod.mk.injEq] at h
      exact ⟨c.m_read_buf, c.m_read_idx, by rw [← h.2], Nat.le_refl _, fun h => h⟩
    | closed =>
      simp only [read_loop, Option.some.injEq, Prod.mk.injEq] at h
      exact ⟨c.m_read_buf, c.m_read_idx, by rw [← h.2], Nat.le_refl _, fun h => h⟩
    | data bs =>
      simp only [read_loop] at h
      by_cases h0 : (bs.take (READ_BUFFER_SIZE - c.m_read_idx)).length = 0
      · rw [if_pos h0] at h
        simp only [Option.some.injEq, Prod.mk.injEq] at h
        exact ⟨c.m_read_buf, c.m_read_idx, by rw [← h.2], Nat.le_refl _, fun h => h⟩
      · rw [if_neg h0] at h
        obtain ⟨buf, n, e, h1, h2⟩ := ih _ c1 b h
        have hl : (bs.take (READ_BUFFER_SIZE - c.m_read_idx)).length
            ≤ READ_BUFFER_SIZE - c.m_read_idx := by
          rw [List.length_take]; exact Nat.min_le_left _ _
        refine ⟨buf, n, e, ?_, fun hc => h2 ?_⟩
        · simp only at h1; omega
        · simp only; omega

theorem read_frame (c c1 : http_conn) (rs : List recv_result) (b : Bool)
    (h : read c rs = some (b, c1)) :
    ∃ buf n, c1 = { c with m_read_buf := buf, m_read_idx := n }
      ∧ c.m_read_idx ≤ n ∧ (c.m_read_idx ≤ READ_BUFFER_SIZE → n ≤ READ_BUFFER_SIZE) := by
  unfold read at h
  split_ifs at h
  · simp only [Option.some.injEq, Prod.mk.injEq] at h
    exact ⟨c.m_read_buf, c.m_read_idx, by rw [← h.2], Nat.le_refl _, fun h => h⟩
  · exact read_loop_frame rs c c1 b h

theorem lines_emitted_chain (ops : List scan_op) :
    ∀ (c : http_conn) (start : Nat), start ≤ c.m_checked_idx →
      (∀ r ∈ lines_emitted c start ops, start ≤ r.1 ∧ r.1 < r.2)
      ∧ (lines_emitted c start ops).Pairwise (fun a b => a.2 ≤ b.1) := by
  induction ops with
  | nil => intro c start _; simp [lines_emitted]
  | cons op ops ih =>
    intro c start hs
    cases op with
    | scan =>
      obtain ⟨buf, k, e, -, hk, -⟩ := parse_line_loop_frame (c.m_read_idx - c.m_checked_idx) c
      have hmono : c.m_checked_idx ≤ (parse_line c).2.m_checked_idx := by
        unfold parse_line; rw [e]; exact hk
      simp only [lines_emitted]
      by_cases hok : (parse_line c).1 = LINE_OK
      · rw [if_pos hok]
        have hlt : c.m_checked_idx < (parse_line c).2.m_checked_idx :=
          (parse_line_loop_ok _ c (parse_line c).2 (by rw [← hok]; rfl)).2.2.1
        obtain ⟨i1, i2⟩ := ih (parse_line c).2 (parse_line c).2.m_checked_idx (Nat.le_refl _)
        refine ⟨fun r hr => ?_, ?_⟩
        · rcases List.mem_cons.1 hr with rfl | hr
          · exact ⟨Nat.le_refl _, by simp only; omega⟩
          · have := i1 r hr
            omega
        · exact List.pairwise_cons.2 ⟨fun r hr => (i1 r hr).1, i2⟩
      · rw [if_neg hok]
        exact ih (parse_line c).2 start (by omega)
    | receive rs =>
      simp only [lines_emitted]
      cases hr : read c rs with
      | none => exact ih c start hs
      | some p =>
        obtain ⟨b, c1⟩ := p
        obtain ⟨buf, n, e, -, -⟩ := read_frame c c1 rs b hr
        exact ih c1 start (by rw [e]; exact hs)

/-- C16: the tokenizer is a restartable, monotone scan. In every state a call
of `parse_line` does not decrease the parse cursor; when it returns `LINE_OK`
the new cursor is greater than the old one and lies just behind the CR LF that
ended the line. In every run of `parse_line` calls, with calls of `read` in
between that let the buffer grow at its end, every line returned as complete
is a non-empty byte range, and each range ends where or before the next one
begins: the ranges are disjoint and increasing, no line is returned twice. -/
theorem parse_line_monotone (c : http_conn) (ops : List scan_op) :
    c.m_checked_idx ≤ (parse_line c).2.m_checked_idx
    ∧ ((parse_line c).1 = LINE_OK →
        c.m_checked_idx < (parse_line c).2.m_checked_idx
        ∧ 2 ≤ (parse_line c).2.m_checked_idx
        ∧ byteAt c.m_read_buf ((parse_line c).2.m_checked_idx - 2) = CR
        ∧ byteAt c.m_read_buf ((parse_line c).2.m_checked_idx - 1) = LF)
    ∧ (∀ r ∈ lines_emitted c c.m_checked_idx ops, r.1 < r.2)
    ∧ (lines_emitted c c.m_checked_idx ops).Pairwise (fun a b => a.2 ≤ b.1) := by
  obtain ⟨buf, k, e, -, hk, -⟩ := parse_line_loop_frame (c.m_read_idx - c.m_checked_idx) c
  have hch := lines_emitted_chain ops c c.m_checked_idx (Nat.le_refl _)
  refine ⟨by unfold parse_line; rw [e]; exact hk, fun hok => ?_,
    fun r hr => (hch.1 r hr).2, hch.2⟩
  have heq : parse_line_loop (c.m_read_idx - c.m_checked_idx) c = (LINE_OK, (parse_line c).2) := by
    rw [← hok]; rfl
  have h1 := parse_line_loop_ok _ c _ heq
  have h2 := parse_line_loop_terminator _ c _ heq
  exact ⟨h1.2.2.1, h2.1, h2.2.1, h2.2.2.1⟩

set_option maxRecDepth 100000 in
/-- A run over "a", then CR LF "b" CR, then LF: three calls return the lines
in the ranges from 0 to 3 and from 3 to 6, the call in between returns
`LINE_OPEN` at the CR. -/
theorem parse_line_monotone_witness :
    lines_emitted (received 1024 blank (bytes "a")) 0
        [scan_op.scan, scan_op.receive [recv_result.data (bytes "\r\nb\r"), recv_result.eagain],
          scan_op.scan, scan_op.scan, scan_op.receive [recv_result.data [LF], recv_result.eagain],
          scan_op.scan]
      = [(0, 3), (3, 6)]
    ∧ (lines_emitted (received 1024 blank (bytes "a"))
        (received 1024 blank (bytes "a")).m_checked_idx
        [scan_op.scan, scan_op.receive [recv_result.data (bytes "\r\nb\r"), recv_result.eagain],
          scan_op.scan, scan_op.scan, scan_op.receive [recv_result.data [LF], recv_result.eagain],
          scan_op.scan]).Pairwise (fun a b => a.2 ≤ b.1) :=
  ⟨by decide,
    (parse_line_monotone (received 1024 blank (bytes "a"))
      [scan_op.scan, scan_op.receive [recv_result.data (bytes "\r\nb\r"), recv_result.eagain],
        scan_op.scan, scan_op.scan, scan_op.receive [recv_result.data [LF], recv_result.eagain],
        scan_op.scan]).2.2.2⟩

/-! ### The cursor invariant -/

theorem parse_headers_start_line (c : http_conn) (text : Nat) :
    (parse_headers c text).2.m_start_line = c.m_start_line := by
  unfold parse_headers
  repeat' (first | exact rfl | split_ifs | dsimp only)

theorem parse_content_start_line (c : http_conn) (text : Nat) :
    (parse_content c text).2.m_start_line = c.m_start_line := by
  unfold parse_content
  split_ifs <;> rfl

theorem do_request_cursors (fs : file_system) (c : http_conn) :
    (do_request fs c).2.m_read_idx = c.m_read_idx
    ∧ (do_request fs c).2.m_checked_idx = c.m_checked_idx
    ∧ (do_request fs c).2.m_start_line = c.m_start_line := by
  unfold do_request
  repeat' (first | exact ⟨rfl, rfl, rfl⟩ | split | split_ifs | dsimp only)

theorem parse_line_cursors_ok (c : http_conn) (h : cursors_ok c) :
    cursors_ok (parse_line c).2 := by
  obtain ⟨buf, k, e, -, -, hk⟩ := parse_line_loop_frame (c.m_read_idx - c.m_checked_idx) c
  unfold parse_line
  rw [e]
  exact ⟨hk h.1, h.2.1, h.2.2⟩

theorem read_cursors_ok (c c1 : http_conn) (rs : List recv_result) (b : Bool)
    (hr : read c rs = some (b, c1)) (h : cursors_ok c) : cursors_ok c1 := by
  obtain ⟨buf, n, e, h1, h2⟩ := read_frame c c1 rs b hr
  rw [e]
  exact ⟨Nat.le_trans h.1 h1, Nat.le_trans h.2.1 h1, h2 h.2.2⟩

theorem process_read_loop_cursors_ok (fs : file_system) (fuel : Nat) :
    ∀ (ls : LINE_STATUS) (c c2 : http_conn) (r : HTTP_CODE), cursors_ok c →
      process_read_loop fs fuel ls c = some (r, c2) → cursors_ok c2 := by
  induction fuel with
  | zero => intro ls c c2 r _ h; simp [process_read_loop] at h
  | succ n ih =>
    intro ls c c2 r hinv h
    have hdo : ∀ x : http_conn, cursors_ok x → cursors_ok (do_request fs x).2 := by
      intro x hx
      obtain ⟨d1, d2, d3⟩ := do_request_cursors fs x
      unfold cursors_ok
      rw [d1, d2, d3]
      exact hx
    by_cases hA : c.m_check_state = CHECK_STATE_CONTENT ∧ ls = LINE_OK
    · obtain ⟨hs, rfl⟩ := hA
      have hpc := parse_content_frame { c with m_start_line := c.m_checked_idx } c.m_start_line
      have hps := parse_content_start_line { c with m_start_line := c.m_checked_idx }
        c.m_start_line
      simp only at hpc hps
      rw [process_read_loop_content fs n c hs] at h
      generalize parse_content { c with m_start_line := c.m_checked_idx } c.m_start_line = p
        at hpc hps h
      have hp : cursors_ok p.2 := by
        unfold cursors_ok
        rw [hpc.1, hpc.2.1, hps]
        exact ⟨hinv.1, hinv.1, hinv.2.2⟩
      split_ifs at h
      · have := hdo _ hp
        simp only [Option.some.injEq] at h
        rw [h] at this
        exact this
      · exact ih _ _ _ _ hp h
    · by_cases hp : (parse_line c).1 = LINE_OK
      · obtain ⟨c1, hc1⟩ : ∃ c1, parse_line c = (LINE_OK, c1) :=
          ⟨(parse_line c).2, by rw [← hp]⟩
        obtain ⟨a1, a2, a3, a4⟩ := parse_line_loop_ok _ c c1 hc1
        have hinv1 : cursors_ok c1 := by
          have := parse_line_cursors_ok c hinv
          rw [hc1] at this
          exact this
        cases hst : c.m_check_state with
        | CHECK_STATE_REQUESTLINE =>
          obtain ⟨buf, url, ver, meth, st, hf⟩ :=
            parse_request_line_frame { c1 with m_start_line := c1.m_checked_idx } c1.m_start_line
          rw [process_read_loop_request_line fs n ls c c1 hst hc1 (by rw [a2, hst])] at h
          generalize parse_request_line { c1 with m_start_line := c1.m_checked_idx }
            c1.m_start_line = p at hf h
          have hp2 : cursors_ok p.2 := by
            rw [hf]
            exact ⟨hinv1.1, hinv1.1, hinv1.2.2⟩
          split_ifs at h
          · have := hp2
            simp only [Option.some.injEq, Prod.mk.injEq] at h
            rw [h.2] at this
            exact this
          · exact ih _ _ _ _ hp2 h
        | CHECK_STATE_HEADER =>
          have hc := parse_headers_cursors { c1 with m_start_line := c1.m_checked_idx }
            c1.m_start_line
          have hs := parse_headers_start_line { c1 with m_start_line := c1.m_checked_idx }
            c1.m_start_line
          simp only at hc hs
          rw [process_read_loop_header fs n ls c c1 hst hc1 (by rw [a2, hst])] at h
          generalize parse_headers { c1 with m_start_line := c1.m_checked_idx }
            c1.m_start_line = p at hc hs h
          have hp2 : cursors_ok p.2 := by
            unfold cursors_ok
            rw [hc.1, hc.2, hs]
            exact ⟨hinv1.1, hinv1.1, hinv1.2.2⟩
          split_ifs at h
          · have := hp2
            simp only [Option.some.injEq, Prod.mk.injEq] at h
            rw [h.2] at this
            exact this
          · have := hdo _ hp2
            simp only [Option.some.injEq] at h
            rw [h] at this
            exact this
          · exact ih _ _ _ _ hp2 h
        | CHECK_STATE_CONTENT =>
          have hls : ls ≠ LINE_OK := fun h => hA ⟨hst, h⟩
          have hpc := parse_content_frame { c1 with m_start_line := c1.m_checked_idx }
            c1.m_start_line
          have hps := parse_content_start_line { c1 with m_start_line := c1.m_checked_idx }
            c1.m_start_line
          simp only at hpc hps
          rw [process_read_loop_content_line fs n ls c c1 hst hls hc1 (by rw [a2, hst])] at h
          generalize parse_content { c1 with m_start_line := c1.m_checked_idx }
            c1.m_start_line = p at hpc hps h
          have hp2 : cursors_ok p.2 := by
            unfold cursors_ok
            rw [hpc.1, hpc.2.1, hps]
            exact ⟨hinv1.1, hinv1.1, hinv1.2.2⟩
          split_ifs at h
          · have := hdo _ hp2
            simp only [Option.some.injEq] at h
            rw [h] at this
            exact this
          · exact ih _ _ _ _ hp2 h
      · rw [process_read_loop_exit fs n ls c hA hp] at h
        have := parse_line_cursors_ok c hinv
        simp only [Option.some.injEq, Prod.mk.injEq] at h
        rw [h.2] at this
        exact this

/-- C15: the cursor invariant. In every state that `init()` followed by any
calls of `read` (with any results of `recv`, none longer than the requested
length), `parse_line` and `process_read` produces, the parse cursor
`m_checked_idx` and the line start `m_start_line` are at most the read cursor
`m_read_idx`, and the read cursor is at most `READ_BUFFER_SIZE`. -/
theorem cursor_invariant (c : http_conn) (h : reachable c) :
    c.m_checked_idx ≤ c.m_read_idx ∧ c.m_start_line ≤ c.m_read_idx
    ∧ c.m_read_idx ≤ READ_BUFFER_SIZE := by
  induction h with
  | of_init W c => exact ⟨Nat.le_refl _, Nat.le_refl _, Nat.zero_le _⟩
  | of_read c c1 rs b _ hr ih => exact read_cursors_ok c c1 rs b hr ih
  | of_parse_line c _ ih => exact parse_line_cursors_ok c ih
  | of_process_read fs c c1 r _ hr ih =>
    exact process_read_loop_cursors_ok fs _ LINE_OK c c1 r ih hr

/-- The state after `init()`, a `read` that receives "GET / HTTP/1.1" with its
line end, and a call of `parse_line` is reachable; its cursors are 16, 0 and
16. -/
theorem cursor_invariant_witness :
    reachable (parse_line (received 1024 blank (bytes "GET / HTTP/1.1\r\n"))).2
    ∧ (parse_line (received 1024 blank (bytes "GET / HTTP/1.1\r\n"))).2.m_checked_idx
      ≤ (parse_line (received 1024 blank (bytes "GET / HTTP/1.1\r\n"))).2.m_read_idx
    ∧ (parse_line (received 1024 blank (bytes "GET / HTTP/1.1\r\n"))).2.m_start_line
      ≤ (parse_line (received 1024 blank (bytes "GET / HTTP/1.1\r\n"))).2.m_read_idx
    ∧ (parse_line (received 1024 blank (bytes "GET / HTTP/1.1\r\n"))).2.m_read_idx
      ≤ READ_BUFFER_SIZE := by
  have h : reachable (parse_line (received 1024 blank (bytes "GET / HTTP/1.1\r\n"))).2 :=
    reachable.of_parse_line _
      (reachable.of_read (init 1024 blank) _
        [recv_result.data (bytes "GET / HTTP/1.1\r\n"), recv_result.eagain] true
        (reachable.of_init 1024 blank)
        (read_init 1024 blank (bytes "GET / HTTP/1.1\r\n") (by decide) (by decide)))
  exact ⟨h, cursor_invariant _ h⟩

/-! ### Bytes in front of the read cursor -/

theorem write_at_eq (buf : List Nat) (n : Nat) (bs : List Nat)
    (h : n + bs.length ≤ buf.length) :
    write_at buf n bs = buf.take n ++ (bs ++ buf.drop (n + bs.length)) := by
  unfold write_at
  rw [List.take_of_length_le (by simp; omega), List.append_assoc]

theorem length_write_at_room (buf : List Nat) (n : Nat) (bs : List Nat)
    (h : n + bs.length ≤ buf.length) : (write_at buf n bs).length = buf.length := by
  rw [write_at_eq buf n bs h]
  simp
  omega

/-- C4 (defect of the code): a request whose request line, ended by CR LF,
has a first token other than "GET" up to case. After `init()` and a `read()`
that received the request, `process_read` returns `BAD_REQUEST`, and the first
statement of `process_write(BAD_REQUEST)` stores the status line
"HTTP/1.1 400 Bad Request" in a write buffer with room for it. The next
statement is the call `add_headers(68)`, 68 being the length of the fixed
message: the body of that function ends without a `return`, so the behaviour
of the program is undefined from there on, and the remainder of the response
is not stated here. -/
theorem unsupported_method_is_bad_request (fs : file_system) (W : Nat) (c : http_conn)
    (line rest : List Nat)
    (hline : ∀ b ∈ line, b ≠ CR ∧ b ≠ LF)
    (hlen : (line ++ CR :: LF :: rest).length ≤ READ_BUFFER_SIZE)
    (hmethod : caseEq (line.takeWhile (fun b => !isSpTab b)) (bytes "GET") = false)
    (hW : 28 ≤ W) :
    ∃ c1 c2,
      read (init W c) [recv_result.data (line ++ CR :: LF :: rest), recv_result.eagain]
        = some (true, c1)
      ∧ process_read fs c1 = some (BAD_REQUEST, c2)
      ∧ (add_status_line W c2 400 error_400_title).1 = true
      ∧ rendered (add_status_line W c2 400 error_400_title).2
        = bytes "HTTP/1.1 400 Bad Request\r\n"
      ∧ ((error_400_form.length : Nat) : Int) = 68 := by
  have hread := read_init W c (line ++ CR :: LF :: rest) (by simp) hlen
  have h0 : (init W c).m_checked_idx = 0 := rfl
  obtain ⟨c2, h2, hc, -⟩ := process_read_bad_method fs W
    (received W c (line ++ CR :: LF :: rest)) line
    (rest ++ List.replicate (READ_BUFFER_SIZE - (line ++ CR :: LF :: rest).length) 0)
    ((line ++ CR :: LF :: rest).length + 1) LINE_OK rfl rfl
    (by simp [received, h0]) hline (by simp [received, h0])
    hmethod ⟨by simp [received, init], by simp [received, init, rendered], rfl⟩ rfl
  have htext : bytes "HTTP/1.1" ++ bytes " " ++ fmt_d 400 ++ bytes " " ++ error_400_title
      ++ bytes "\r\n" = bytes "HTTP/1.1 400 Bad Request\r\n" := by decide
  have hl : (bytes "HTTP/1.1 400 Bad Request\r\n").length = 26 := by decide
  have hs := add_response_step W c2 (bytes "HTTP/1.1 400 Bad Request\r\n") [] hc
    (by rw [hl]; simp only [List.length_nil]; omega)
  refine ⟨_, c2, hread, h2, ?_, ?_, by decide⟩
  · unfold add_status_line; rw [htext]; exact hs.1
  · unfold add_status_line; rw [htext]; exact hs.2.1.2.1

set_option maxRecDepth 100000 in
/-- The request "POST / HTTP/1.1" followed by an empty line: `process_read`
returns `BAD_REQUEST` and `process_write` begins with the status line of the
code 400 (capacity of the write buffer 1024). -/
theorem unsupported_method_is_bad_request_witness :
    (∀ b ∈ bytes "POST / HTTP/1.1", b ≠ CR ∧ b ≠ LF)
    ∧ (bytes "POST / HTTP/1.1" ++ CR :: LF :: [CR, LF]).length ≤ READ_BUFFER_SIZE
    ∧ caseEq ((bytes "POST / HTTP/1.1").takeWhile (fun b => !isSpTab b)) (bytes "GET") = false
    ∧ ∃ c1 c2,
      read (init 1024 blank)
          [recv_result.data (bytes "POST / HTTP/1.1" ++ CR :: LF :: [CR, LF]), recv_result.eagain]
        = some (true, c1)
      ∧ process_read example_fs c1 = some (BAD_REQUEST, c2)
      ∧ (add_status_line 1024 c2 400 error_400_title).1 = true
      ∧ rendered (add_status_line 1024 c2 400 error_400_title).2
        = bytes "HTTP/1.1 400 Bad Request\r\n"
      ∧ ((error_400_form.length : Nat) : Int) = 68 :=
  ⟨by decide, by decide, by decide,
    unsupported_method_is_bad_request example_fs 1024 blank (bytes "POST / HTTP/1.1") [CR, LF]
      (by decide) (by decide) (by decide) (by decide)⟩

/-- C7 (defect of the code): a request made of a well-formed GET request
line, header lines (non-empty, free of NUL, CR and LF) none of which announces
a body, one of them "Connection: keep-alive", and the empty line, received at
once by a freshly initialised connection. If `stat` on the resolved path finds
a file that is readable by others, is no directory and has a size above 0, then
`process_read` returns `FILE_REQUEST` with the keep-alive flag set and the file
mapped, and the first statement of `process_write(FILE_REQUEST)` stores the
status line "HTTP/1.1 200 OK" in a write buffer with room for it. The size is
not 0, so the next statement is the call `add_headers(m_file_stat.st_size)`:
the body of that function ends without a `return`, so the behaviour of the
program is undefined from there on, and the headers and the two segments are
not stated here. -/
theorem file_request_is_resolved (fs : file_system) (W : Nat) (c : http_conn)
    (line m ws1 url ws2 ver : List Nat) (hs : List (List Nat)) (st : file_stat)
    (hshape : is_request_line line m ws1 url ws2 ver)
    (hclean : ∀ b ∈ line, b ≠ 0 ∧ b ≠ CR ∧ b ≠ LF)
    (hall : ∀ h ∈ hs, h ≠ [] ∧ (∀ b ∈ h, b ≠ 0 ∧ b ≠ CR ∧ b ≠ LF) ∧ announced_length h = 0)
    (hka : bytes "Connection: keep-alive" ∈ hs)
    (hlen : (request_bytes line hs).length ≤ READ_BUFFER_SIZE)
    (hstat : fs.stat (resolved_path (stored_url url)) = some st)
    (hr : S_IROTH st.st_mode = true) (hd : S_ISDIR st.st_mode = false)
    (hsize : 0 < st.st_size)
    (hW : 19 ≤ W) :
    ∃ c1 c2,
      read (init W c) [recv_result.data (request_bytes line hs), recv_result.eagain]
        = some (true, c1)
      ∧ process_read fs c1 = some (FILE_REQUEST, c2)
      ∧ c2.m_linger = true
      ∧ c2.m_file_stat = st
      ∧ c2.m_file_address = fs.mmap (resolved_path (stored_url url)) st.st_size
      ∧ (add_status_line W c2 200 ok_200_title).1 = true
      ∧ rendered (add_status_line W c2 200 ok_200_title).2 = bytes "HTTP/1.1 200 OK\r\n"
      ∧ (add_status_line W c2 200 ok_200_title).2.m_file_stat.st_size ≠ 0 := by
  obtain ⟨c1, c2, hread, hpr, hinv, hk⟩ :=
    process_read_bodiless fs W c line m ws1 url ws2 ver hs hshape hclean hall hlen
  obtain ⟨-, -, -, ⟨w, r, hurl, hU, -⟩, hholds, hrf⟩ := hinv
  obtain ⟨rf, hdo⟩ := do_request_file fs c2 (stored_url url) w r st hurl hU hrf hstat hr hd
  obtain ⟨c3, hc3⟩ : ∃ c3 : http_conn, c3 =
      { c2 with
        m_real_file := rf, m_file_stat := st
        m_file_address := fs.mmap (resolved_path (stored_url url)) st.st_size } := ⟨_, rfl⟩
  rw [← hc3] at hdo
  have hl : c3.m_linger = true := by rw [hc3]; exact hk hka
  have hst : c3.m_file_stat = st := by rw [hc3]
  have had : c3.m_file_address = fs.mmap (resolved_path (stored_url url)) st.st_size := by
    rw [hc3]
  have hholds3 : holds W c3 [] := by rw [hc3]; exact hholds
  have htext : bytes "HTTP/1.1" ++ bytes " " ++ fmt_d 200 ++ bytes " " ++ ok_200_title
      ++ bytes "\r\n" = bytes "HTTP/1.1 200 OK\r\n" := by decide
  have hlt : (bytes "HTTP/1.1 200 OK\r\n").length = 17 := by decide
  have hs := add_response_step W c3 (bytes "HTTP/1.1 200 OK\r\n") [] hholds3
    (by rw [hlt]; simp only [List.length_nil]; omega)
  obtain ⟨b1, i1, ef⟩ := add_status_line_frame W c3 200 ok_200_title
  refine ⟨c1, c3, hread, by rw [hpr, hdo], hl, hst, had, ?_, ?_, ?_⟩
  · unfold add_status_line; rw [htext]; exact hs.1
  · unfold add_status_line; rw [htext]; exact hs.2.1.2.1
  · rw [ef]
    show c3.m_file_stat.st_size ≠ 0
    rw [hst]
    omega

set_option maxRecDepth 100000 in
/-- The request "GET /index.html HTTP/1.1", "Host: x",
"Connection: keep-alive" against the example file system, with a write buffer
of 1024 bytes. -/
theorem file_request_is_resolved_witness :
    is_request_line (bytes "GET /index.html HTTP/1.1") (bytes "GET") (bytes " ")
      (bytes "/index.html") (bytes " ") (bytes "HTTP/1.1")
    ∧ bytes "Connection: keep-alive" ∈ [bytes "Host: x", bytes "Connection: keep-alive"]
    ∧ ∃ c1 c2,
      read (init 1024 blank)
          [recv_result.data (request_bytes (bytes "GET /index.html HTTP/1.1")
            [bytes "Host: x", bytes "Connection: keep-alive"]), recv_result.eagain]
        = some (true, c1)
      ∧ process_read example_fs c1 = some (FILE_REQUEST, c2)
      ∧ c2.m_linger = true
      ∧ c2.m_file_stat = ⟨0o100644, 5⟩
      ∧ c2.m_file_address
        = example_fs.mmap (resolved_path (stored_url (bytes "/index.html"))) 5
      ∧ (add_status_line 1024 c2 200 ok_200_title).1 = true
      ∧ rendered (add_status_line 1024 c2 200 ok_200_title).2 = bytes "HTTP/1.1 200 OK\r\n"
      ∧ (add_status_line 1024 c2 200 ok_200_title).2.m_file_stat.st_size ≠ 0 := by
  have h1 : is_request_line (bytes "GET /index.html HTTP/1.1") (bytes "GET") (bytes " ")
      (bytes "/index.html") (bytes " ") (bytes "HTTP/1.1") := by
    unfold is_request_line; decide
  exact ⟨h1, by decide,
    file_request_is_resolved example_fs 1024 blank _ _ _ _ _ _
      [bytes "Host: x", bytes "Connection: keep-alive"] ⟨0o100644, 5⟩ h1
      (by decide) (by decide) (by decide) (by decide) (by decide) (by decide) (by decide)
      (by decide) (by decide)⟩

end TinyWebServer
